import Mathlib

/-!
Verification development for the restless terminal HTTP client.

The Rust sources are shallowly embedded: Rust `String` values are modelled as
`List Char` (named `Str` below), `Vec<T>` as `List T`, `usize` as `Nat`,
fallible functions return their final state together with an `Option`/`Except`
error value, mirroring the in-place mutation order of the Rust code (a function
that mutates some fields and then returns `Err` is modelled by a result state
with exactly those fields changed).

Layout:
1. Rust string primitives (trim, contains, splitn, lines).
2. Data model: HttpMethod, Method, errors, Request, Response, Tab, App.
3. Operations of src/app/app.rs (tab store, header/param commit, validation,
   save/restore), src/handlers/navigation.rs, and the key-event arms of
   src/main.rs used by the claims.
4. src/logic/request.rs URL assembly with percent encoding.
5. src/logic/response.rs header splitting and JSON pretty printing, with a
   model of the serde_json value type, parser and pretty printer.
6. The claim theorems.
-/

/-- Rust `String` contents, modelled as a list of unicode scalar values. -/
abbrev Str := List Char

deriving instance DecidableEq for Except

/-- The Unicode White_Space code points, as used by Rust `char::is_whitespace`
(and hence by `str::trim`). -/
def isRustWhitespace (c : Char) : Bool :=
  c.toNat ∈ [0x09, 0x0A, 0x0B, 0x0C, 0x0D, 0x20, 0x85, 0xA0, 0x1680,
    0x2000, 0x2001, 0x2002, 0x2003, 0x2004, 0x2005, 0x2006, 0x2007,
    0x2008, 0x2009, 0x200A, 0x2028, 0x2029, 0x202F, 0x205F, 0x3000]

/-- Rust `str::trim`: remove leading and trailing whitespace. -/
def rustTrim (s : Str) : Str :=
  ((s.dropWhile isRustWhitespace).reverse.dropWhile isRustWhitespace).reverse

/-- Rust `str::contains(char)`. -/
def hasChar (s : Str) (c : Char) : Bool :=
  s.any (fun x => x = c)

/-- Rust `str::splitn(2, c)` when the separator occurs: the part before the
first occurrence of `c` and the part after it.  `none` when `c` does not
occur (Rust would then yield a single part). -/
def splitAtFirst (c : Char) : Str → Option (Str × Str)
  | [] => none
  | x :: xs =>
    if x = c then some ([], xs)
    else
      match splitAtFirst c xs with
      | some (l, r) => some (x :: l, r)
      | none => none

/-- Strip one trailing carriage return, as Rust `str::lines` does per line. -/
def stripTrailingCr (s : Str) : Str :=
  match s.reverse with
  | '\r' :: rest => rest.reverse
  | _ => s

/-- Rust `str::lines`: split on newline, drop a final empty segment produced
by a trailing newline, and strip one trailing CR from each line. -/
def rustLines (s : Str) : List Str :=
  let parts := s.splitOn '\n'
  let parts :=
    match parts.reverse with
    | [] :: rest => rest.reverse
    | _ => parts
  parts.map stripTrailingCr

/-- The four UI-level HTTP verbs of src/logic/request.rs. -/
inductive HttpMethod where
  | GET
  | POST
  | PUT
  | DELETE
deriving DecidableEq, Repr

/-- The transport-layer method representation (reqwest `Method`), which can
also hold methods outside the four supported ones. -/
inductive Method where
  | mGET
  | mPOST
  | mPUT
  | mDELETE
  | mOther (name : Str)
deriving DecidableEq, Repr

/-- The `From<&HttpMethod> for Method` conversion of src/logic/request.rs. -/
def methodOfHttp : HttpMethod → Method
  | .GET => .mGET
  | .POST => .mPOST
  | .PUT => .mPUT
  | .DELETE => .mDELETE

/-- The `TryFrom<&Method> for HttpMethod` conversion of src/logic/request.rs:
fails on any method other than the four supported ones. -/
def httpOfMethod : Method → Option HttpMethod
  | .mGET => some .GET
  | .mPOST => some .POST
  | .mPUT => some .PUT
  | .mDELETE => some .DELETE
  | .mOther _ => none

/-- The error kinds of `RestlessError` in src/error.rs (payload strings are
not modelled; callers branch only on the kind). -/
inductive RErr where
  | network
  | json
  | urlEncoding
  | invalidHttpMethod
  | invalidUrl
  | timeout
  | invalidHeader
  | invalidParameter
  | tab
  | io
  | terminal
  | responseParsing
  | configuration
  | appState
deriving DecidableEq, Repr

/-- The error kinds of `RequestError` in src/error.rs. -/
inductive ReqErr where
  | http
  | invalidUrl
  | timeout
  | invalidHeader
  | bodySerialization
  | connection
deriving DecidableEq, Repr

/-- The error kinds of `ResponseError` in src/error.rs. -/
inductive RespErr where
  | bodyParsing
  | headerParsing
  | jsonFormatting
  | emptyBody
  | unsupportedContentType
deriving DecidableEq, Repr

/-- The `Request` struct of src/logic/request.rs. -/
structure Request where
  url : Str
  method : Method
  headers : List (Str × Str)
  body : Option Str
  params : List (Str × Str)
deriving DecidableEq, Repr

/-- The `Response` struct of src/logic/response.rs. -/
structure ResponseM where
  statusCode : Nat
  headers : List (Str × Str)
  body : Str
deriving DecidableEq, Repr

/-- The `Tab` struct of src/app/tab.rs. -/
structure Tab where
  name : Str
  request : Request
  response : Option ResponseM
deriving DecidableEq, Repr

/-- `Tab::new` of src/app/tab.rs. -/
def tabNew (name url : Str) : Tab :=
  { name := name
    request :=
      { url := url
        method := methodOfHttp .GET
        headers := []
        body := none
        params := [] }
    response := none }

/-- The `CurrentScreen` enum of src/app/app.rs. -/
inductive CurrentScreen where
  | Url
  | Values
  | Response
  | EditingUrl
  | EditingBody
  | EditingHeaders
  | EditingParams
  | Help
  | Exiting
deriving DecidableEq, Repr

/-- The `ValuesScreen` enum of src/app/app.rs. -/
inductive ValuesScreen where
  | Body
  | Headers
  | Params
deriving DecidableEq, Repr

/-- The `App` struct of src/app/app.rs.  The ratatui scrollbar-state field is
pure widget state and is not modelled. -/
structure App where
  currentScreen : CurrentScreen
  valuesScreen : ValuesScreen
  tabs : List Tab
  selectedTab : Nat
  urlInput : Str
  selectedMethod : HttpMethod
  methodDropdownOpen : Bool
  methodDropdownSelected : Nat
  bodyInput : Str
  headersInput : List (Str × Str)
  paramsInput : List (Str × Str)
  currentHeaderKey : Str
  currentHeaderValue : Str
  currentParamKey : Str
  currentParamValue : Str
  editingHeaderIndex : Option Nat
  editingParamIndex : Option Nat
  responseTabSelected : Nat
  responseScroll : Nat
  helpVisible : Bool
  helpScroll : Nat
  previousScreen : CurrentScreen
deriving DecidableEq, Repr

/-- `App::new` of src/app/app.rs. -/
def appNew : App :=
  { currentScreen := .Values
    valuesScreen := .Body
    tabs := [tabNew "Tab 1".data []]
    selectedTab := 0
    urlInput := []
    selectedMethod := .GET
    methodDropdownOpen := false
    methodDropdownSelected := 0
    bodyInput := []
    headersInput := []
    paramsInput := []
    currentHeaderKey := []
    currentHeaderValue := []
    currentParamKey := []
    currentParamValue := []
    editingHeaderIndex := none
    editingParamIndex := none
    responseTabSelected := 1
    responseScroll := 0
    helpVisible := false
    helpScroll := 0
    previousScreen := .Values }

/-- `App::add_header` of src/app/app.rs.  Returns the final state together
with the error, mirroring the in-place mutation of the Rust method. -/
def addHeader (a : App) : App × Option RErr :=
  if a.currentHeaderKey = [] then (a, none)
  else if rustTrim a.currentHeaderKey = [] then (a, some .invalidHeader)
  else if hasChar a.currentHeaderKey '\n' || hasChar a.currentHeaderKey '\r' then
    (a, some .invalidHeader)
  else if hasChar a.currentHeaderKey ':' then
    match splitAtFirst ':' a.currentHeaderKey with
    | some (l, r) =>
      let key := rustTrim l
      let value := rustTrim r
      if key = [] then (a, some .invalidHeader)
      else
        ({ a with
            headersInput := a.headersInput ++ [(key, value)]
            currentHeaderKey := []
            currentHeaderValue := [] }, none)
    | none =>
      -- unreachable: `hasChar .. ':'` guarantees the split succeeds
      ({ a with currentHeaderKey := [], currentHeaderValue := [] }, none)
  else if a.currentHeaderValue ≠ [] then
    let value := rustTrim a.currentHeaderValue
    if hasChar value '\n' || hasChar value '\r' then (a, some .invalidHeader)
    else
      ({ a with
          headersInput := a.headersInput ++ [(a.currentHeaderKey, value)]
          currentHeaderKey := []
          currentHeaderValue := [] }, none)
  else ({ a with currentHeaderKey := [], currentHeaderValue := [] }, none)

/-- `App::add_param` of src/app/app.rs. -/
def addParam (a : App) : App × Option RErr :=
  if a.currentParamKey = [] then (a, none)
  else if rustTrim a.currentParamKey = [] then (a, some .invalidParameter)
  else if hasChar a.currentParamKey '=' then
    match splitAtFirst '=' a.currentParamKey with
    | some (l, r) =>
      let key := rustTrim l
      let value := rustTrim r
      if key = [] then (a, some .invalidParameter)
      else
        ({ a with
            paramsInput := a.paramsInput ++ [(key, value)]
            currentParamKey := []
            currentParamValue := [] }, none)
    | none =>
      ({ a with currentParamKey := [], currentParamValue := [] }, none)
  else if a.currentParamValue ≠ [] then
    let key := rustTrim a.currentParamKey
    let value := rustTrim a.currentParamValue
    if key = [] then (a, some .invalidParameter)
    else
      ({ a with
          paramsInput := a.paramsInput ++ [(key, value)]
          currentParamKey := []
          currentParamValue := [] }, none)
  else ({ a with currentParamKey := [], currentParamValue := [] }, none)

/-- The header-list check inside `App::validate_current_request`. -/
def checkHeadersList : List (Str × Str) → Option RErr
  | [] => none
  | (k, v) :: rest =>
    if rustTrim k = [] then some .invalidHeader
    else if hasChar k '\n' || hasChar k '\r' then some .invalidHeader
    else if hasChar v '\n' || hasChar v '\r' then some .invalidHeader
    else checkHeadersList rest

/-- The parameter-list check inside `App::validate_current_request`. -/
def checkParamsList : List (Str × Str) → Option RErr
  | [] => none
  | (k, _) :: rest =>
    if rustTrim k = [] then some .invalidParameter
    else checkParamsList rest

/-- `App::validate_current_request` of src/app/app.rs: `none` means `Ok(())`. -/
def validateCurrentRequest (a : App) : Option RErr :=
  if rustTrim a.urlInput = [] then some .invalidUrl
  else if ¬ ("http://".data.isPrefixOf a.urlInput ∨
      "https://".data.isPrefixOf a.urlInput) then some .invalidUrl
  else
    match checkHeadersList a.headersInput with
    | some e => some e
    | none => checkParamsList a.paramsInput

/-- The Request written from the edit buffers by `App::save_current_tab_state`:
url, method, body (empty string maps to no body), header list, param list. -/
def bufferRequest (a : App) : Request :=
  { url := a.urlInput
    method := methodOfHttp a.selectedMethod
    body := if a.bodyInput = [] then none else some a.bodyInput
    headers := a.headersInput
    params := a.paramsInput }

/-- `App::save_current_tab_state` of src/app/app.rs. -/
def saveCurrentTabState (a : App) : App × Option RErr :=
  match a.tabs[a.selectedTab]? with
  | some t =>
    ({ a with tabs := a.tabs.set a.selectedTab { t with request := bufferRequest a } }, none)
  | none => (a, some .appState)

/-- `App::restore_current_tab_state` of src/app/app.rs.  Note the Rust method
assigns `url_input` before the fallible method conversion, so on a conversion
failure only `url_input` has been updated. -/
def restoreCurrentTabState (a : App) : App × Option RErr :=
  match a.tabs[a.selectedTab]? with
  | some t =>
    let a1 := { a with urlInput := t.request.url }
    match httpOfMethod t.request.method with
    | some m =>
      ({ a1 with
          selectedMethod := m
          bodyInput := t.request.body.getD []
          headersInput := t.request.headers
          paramsInput := t.request.params }, none)
    | none => (a1, some .appState)
  | none => (a, some .appState)

/-- `App::next_tab` of src/app/app.rs.  (With an empty tab list the Rust code
would panic on `% 0`; that state is unreachable, see the tab-store invariant.) -/
def nextTab (a : App) : App × Option RErr :=
  match saveCurrentTabState a with
  | (a1, some e) => (a1, some e)
  | (a1, none) =>
    restoreCurrentTabState { a1 with selectedTab := (a1.selectedTab + 1) % a1.tabs.length }

/-- `App::prev_tab` of src/app/app.rs. -/
def prevTab (a : App) : App × Option RErr :=
  match saveCurrentTabState a with
  | (a1, some e) => (a1, some e)
  | (a1, none) =>
    restoreCurrentTabState
      { a1 with
          selectedTab :=
            if a1.selectedTab = 0 then a1.tabs.length - 1 else a1.selectedTab - 1 }

/-- `App::add_new_tab` of src/app/app.rs. -/
def addNewTab (a : App) : App × Option RErr :=
  match saveCurrentTabState a with
  | (a1, some _) => (a1, some .tab)
  | (a1, none) =>
    let name := "Tab ".data ++ Nat.toDigits 10 (a1.tabs.length + 1)
    let a2 := { a1 with tabs := a1.tabs ++ [tabNew name []] }
    let a3 := { a2 with selectedTab := a2.tabs.length - 1 }
    match restoreCurrentTabState a3 with
    | (a4, some _) => (a4, some .tab)
    | ok => ok

/-- `App::close_current_tab` of src/app/app.rs. -/
def closeCurrentTab (a : App) : App × Option RErr :=
  if a.tabs.length ≤ 1 then (a, some .tab)
  else if a.tabs.length ≤ a.selectedTab then (a, some .appState)
  else
    let a1 := { a with tabs := a.tabs.eraseIdx a.selectedTab }
    let a2 :=
      if a1.tabs.length ≤ a1.selectedTab then
        { a1 with selectedTab := a1.tabs.length - 1 }
      else a1
    match restoreCurrentTabState a2 with
    | (a3, some _) => (a3, some .tab)
    | ok => ok

/-- The tab operations of claim C1. -/
inductive TabOp where
  | addNew
  | closeCur
  | next
  | prev
deriving DecidableEq, Repr

/-- One tab operation applied to the application state (the resulting state,
whether or not the operation reported an error). -/
def tabOpStep (a : App) : TabOp → App
  | .addNew => (addNewTab a).1
  | .closeCur => (closeCurrentTab a).1
  | .next => (nextTab a).1
  | .prev => (prevTab a).1

/-- Run a sequence of tab operations from a state. -/
def runTabOps (a : App) (ops : List TabOp) : App :=
  ops.foldl tabOpStep a

/-- The tab-store invariant of the spec: at least one tab, and the selected
index in bounds. -/
def TabsOk (a : App) : Prop :=
  1 ≤ a.tabs.length ∧ a.selectedTab < a.tabs.length

/-- `navigate_section_down` of src/handlers/navigation.rs; the same match is
inlined in the Ctrl+j arm of `run_app` in src/main.rs. -/
def navigateSectionDown : CurrentScreen → CurrentScreen
  | .Url => .Values
  | .Values => .Response
  | s => s

/-- `navigate_section_up` of src/handlers/navigation.rs; the same match is
inlined in the Ctrl+k arm of `run_app` in src/main.rs. -/
def navigateSectionUp : CurrentScreen → CurrentScreen
  | .Response => .Values
  | .Values => .Url
  | s => s

/-- `App::show_help` of src/app/app.rs. -/
def showHelp (a : App) : App :=
  if a.helpVisible then a
  else
    { a with
        previousScreen := a.currentScreen
        currentScreen := .Help
        helpVisible := true
        helpScroll := 0 }

/-- `App::hide_help` of src/app/app.rs. -/
def hideHelp (a : App) : App :=
  if a.helpVisible then { a with currentScreen := a.previousScreen, helpVisible := false }
  else a

/-- Number of entries returned by `App::get_help_content`. -/
def helpContentLength : Nat := 24

/-- Decoded key events as consumed by `run_app` in src/main.rs.  `ctrlJ` and
`ctrlK` are `KeyCode::Char` events carrying the CONTROL modifier; all other
modelled character events carry no modifier. -/
inductive Key where
  | enter
  | backspace
  | esc
  | tabKey
  | backTab
  | up
  | down
  | left
  | right
  | ctrlJ
  | ctrlK
  | ch (c : Char)
deriving DecidableEq, Repr

/-- The `KeyCode::Char` payload of a key event, if any.  Rust patterns such as
`KeyCode::Char('j')` (without a modifier guard) match the character
regardless of modifiers, so Ctrl+j also carries the char `j`. -/
def keyCharOf : Key → Option Char
  | .ch c => some c
  | .ctrlJ => some 'j'
  | .ctrlK => some 'k'
  | _ => none

/-- The method-dropdown key handling of `run_app` (src/main.rs), active while
the dropdown overlay is open. -/
def dropdownStep (a : App) (k : Key) : App :=
  if k = .up then
    { a with
        methodDropdownSelected :=
          if a.methodDropdownSelected = 0 then 3 else a.methodDropdownSelected - 1 }
  else if k = .down then
    { a with
        methodDropdownSelected :=
          if a.methodDropdownSelected = 3 then 0 else a.methodDropdownSelected + 1 }
  else if k = .enter then
    { a with
        selectedMethod :=
          match a.methodDropdownSelected with
          | 0 => .GET
          | 1 => .POST
          | 2 => .PUT
          | 3 => .DELETE
          | _ => .GET
        methodDropdownOpen := false }
  else if k = .esc then { a with methodDropdownOpen := false }
  else a

/-- Whether the Enter(send) arm of `run_app` reaches the network dispatch:
it first runs `App::validate_current_request` and skips the send on error. -/
def sendWouldDispatch (a : App) : Bool :=
  (validateCurrentRequest a).isNone

/-- The request the Enter(send) arm of `run_app` hands to the dispatcher:
`app.tabs[app.selected_tab].request`, the request stored on the selected tab
(Rust panics when the index is out of bounds; the model returns a default). -/
def dispatchedRequest (a : App) : Request :=
  ((a.tabs[a.selectedTab]?).getD (tabNew [] [])).request

/-- The first (global) match of the viewing-screen arm of `run_app` in
src/main.rs, dropdown closed.  The network send and response storage of the
Enter arm are I/O and are not modelled; see `sendWouldDispatch` and
`dispatchedRequest` for the data that arm uses. -/
def viewingFirstMatch (a : App) (k : Key) : App :=
  if keyCharOf k = some 'u' then { a with currentScreen := .EditingUrl }
  else if k = .ctrlJ then { a with currentScreen := navigateSectionDown a.currentScreen }
  else if k = .ctrlK then { a with currentScreen := navigateSectionUp a.currentScreen }
  else if k = .enter then a
  else if keyCharOf k = some 'm' then
    { a with
        methodDropdownOpen := true
        methodDropdownSelected :=
          match a.selectedMethod with
          | .GET => 0
          | .POST => 1
          | .PUT => 2
          | .DELETE => 3 }
  else if keyCharOf k = some 'q' then { a with currentScreen := .Exiting }
  else if keyCharOf k = some 't' then (addNewTab a).1
  else if keyCharOf k = some 'x' then (closeCurrentTab a).1
  else if k = .tabKey then (nextTab a).1
  else if k = .backTab then (prevTab a).1
  else a

/-- The second (screen-specific) match of the viewing-screen arm of `run_app`,
evaluated on the state already updated by the first match. -/
def viewingSecondMatch (a : App) (k : Key) : App :=
  match a.currentScreen with
  | .Response =>
    if k = .left ∨ keyCharOf k = some 'h' then { a with responseTabSelected := 0 }
    else if k = .right ∨ keyCharOf k = some 'b' then { a with responseTabSelected := 1 }
    else if keyCharOf k = some 'j' then
      if a.responseTabSelected = 1 then { a with responseScroll := a.responseScroll + 1 }
      else a
    else if keyCharOf k = some 'k' then
      if a.responseTabSelected = 1 then { a with responseScroll := a.responseScroll - 1 }
      else a
    else if keyCharOf k = some '?' then showHelp a
    else a
  | .Values =>
    if keyCharOf k = some 'h' ∨ k = .left then
      { a with
          valuesScreen :=
            match a.valuesScreen with
            | .Headers => .Body
            | .Params => .Headers
            | v => v }
    else if keyCharOf k = some 'l' ∨ k = .right then
      { a with
          valuesScreen :=
            match a.valuesScreen with
            | .Body => .Headers
            | .Headers => .Params
            | v => v }
    else if keyCharOf k = some 'i' then
      { a with
          currentScreen :=
            match a.valuesScreen with
            | .Body => .EditingBody
            | .Headers => .EditingHeaders
            | .Params => .EditingParams }
    else if keyCharOf k = some '?' then showHelp a
    else a
  | .Url => if keyCharOf k = some '?' then showHelp a else a
  | _ => a

/-- The EditingUrl arm of `run_app` in src/main.rs.  The Enter commit writes
only the url buffer into the selected tab's request (Rust panics on an
out-of-range index; `List.set` is then a no-op). -/
def editingUrlStep (a : App) (k : Key) : App :=
  if k = .enter then
    { a with
        tabs :=
          match a.tabs[a.selectedTab]? with
          | some t =>
            a.tabs.set a.selectedTab { t with request := { t.request with url := a.urlInput } }
          | none => a.tabs
        currentScreen := .Url }
  else if k = .backspace then { a with urlInput := a.urlInput.dropLast }
  else if k = .esc then { a with currentScreen := .Url }
  else
    match keyCharOf k with
    | some c => { a with urlInput := a.urlInput ++ [c] }
    | none => a

/-- The EditingBody arm of `run_app` in src/main.rs. -/
def editingBodyStep (a : App) (k : Key) : App :=
  if k = .enter then { a with bodyInput := a.bodyInput ++ ['\n'] }
  else if k = .backspace then { a with bodyInput := a.bodyInput.dropLast }
  else if k = .esc then { a with currentScreen := .Values }
  else
    match keyCharOf k with
    | some c => { a with bodyInput := a.bodyInput ++ [c] }
    | none => a

/-- The EditingHeaders arm of `run_app` in src/main.rs.  Note that the
`KeyCode::Char(':')` arm of the Rust source contains only a comment and
changes no state, and the Tab arm pushes a space into the value and
immediately clears it (net effect none). -/
def editingHeadersStep (a : App) (k : Key) : App :=
  if k = .enter then
    if a.currentHeaderKey ≠ [] then (addHeader a).1
    else { a with currentScreen := .Values }
  else if k = .tabKey then a
  else if k = .backspace then
    if a.currentHeaderValue ≠ [] then { a with currentHeaderValue := a.currentHeaderValue.dropLast }
    else if a.currentHeaderKey ≠ [] then { a with currentHeaderKey := a.currentHeaderKey.dropLast }
    else a
  else if k = .esc then
    { a with currentHeaderKey := [], currentHeaderValue := [], currentScreen := .Values }
  else if keyCharOf k = some ':' then a
  else if keyCharOf k = some ' ' then
    if a.currentHeaderKey.getLast? = some ':' ∧ a.currentHeaderValue = [] then a
    else if a.currentHeaderValue ≠ [] ∨ a.currentHeaderKey ≠ [] then
      if hasChar a.currentHeaderKey ':' then
        { a with currentHeaderValue := a.currentHeaderValue ++ [' '] }
      else { a with currentHeaderKey := a.currentHeaderKey ++ [' '] }
    else a
  else
    match keyCharOf k with
    | some c =>
      if ¬ hasChar a.currentHeaderKey ':' then
        { a with currentHeaderKey := a.currentHeaderKey ++ [c] }
      else { a with currentHeaderValue := a.currentHeaderValue ++ [c] }
    | none => a

/-- The EditingParams arm of `run_app` in src/main.rs; like the headers arm,
its `KeyCode::Char('=')` arm contains only a comment and changes no state. -/
def editingParamsStep (a : App) (k : Key) : App :=
  if k = .enter then
    if a.currentParamKey ≠ [] then (addParam a).1
    else { a with currentScreen := .Values }
  else if k = .tabKey then a
  else if k = .backspace then
    if a.currentParamValue ≠ [] then { a with currentParamValue := a.currentParamValue.dropLast }
    else if a.currentParamKey ≠ [] then { a with currentParamKey := a.currentParamKey.dropLast }
    else a
  else if k = .esc then
    { a with currentParamKey := [], currentParamValue := [], currentScreen := .Values }
  else if keyCharOf k = some '=' then a
  else
    match keyCharOf k with
    | some c =>
      if ¬ hasChar a.currentParamKey '=' then
        { a with currentParamKey := a.currentParamKey ++ [c] }
      else { a with currentParamValue := a.currentParamValue ++ [c] }
    | none => a

/-- The Help arm of `run_app` in src/main.rs. -/
def helpStep (a : App) (k : Key) : App :=
  if k = .esc then hideHelp a
  else if keyCharOf k = some 'j' then
    if a.helpScroll < helpContentLength - 1 then { a with helpScroll := a.helpScroll + 1 }
    else a
  else if keyCharOf k = some 'k' then { a with helpScroll := a.helpScroll - 1 }
  else a

/-- One key event processed by `run_app` in src/main.rs (with no pending
error banner; a pending banner consumes the key instead). -/
def mainStep (a : App) (k : Key) : App :=
  match a.currentScreen with
  | .Url | .Values | .Response =>
    if a.methodDropdownOpen then dropdownStep a k
    else viewingSecondMatch (viewingFirstMatch a k) k
  | .Help => helpStep a k
  | .EditingUrl => editingUrlStep a k
  | .EditingBody => editingBodyStep a k
  | .EditingHeaders => editingHeadersStep a k
  | .EditingParams => editingParamsStep a k
  | _ => a

/-- A sequence of key events processed by `run_app`. -/
def runKeys (a : App) (ks : List Key) : App :=
  ks.foldl mainStep a

/-- The character-level arms of `handle_headers_editing_keys` in the
superseded handler module src/handlers/keyboard.rs (not reachable from
`main`, kept for comparison with the inline arm of src/main.rs): there the
`KeyCode::Char(':')` arm does append the colon to the key, so the first
colon switches subsequent characters into the value accumulator. -/
def editingHeadersStepRev (a : App) (k : Key) : App :=
  if k = .enter then
    if a.currentHeaderKey ≠ [] then (addHeader a).1
    else { a with currentScreen := .Values }
  else if k = .tabKey then a
  else if k = .backspace then
    if a.currentHeaderValue ≠ [] then { a with currentHeaderValue := a.currentHeaderValue.dropLast }
    else if a.currentHeaderKey ≠ [] then { a with currentHeaderKey := a.currentHeaderKey.dropLast }
    else a
  else if k = .esc then
    { a with currentHeaderKey := [], currentHeaderValue := [], currentScreen := .Values }
  else if keyCharOf k = some ':' then
    if a.currentHeaderKey ≠ [] ∧ a.currentHeaderValue = [] then
      { a with currentHeaderKey := a.currentHeaderKey ++ [':'] }
    else if ¬ hasChar a.currentHeaderKey ':' then
      { a with currentHeaderKey := a.currentHeaderKey ++ [':'] }
    else { a with currentHeaderValue := a.currentHeaderValue ++ [':'] }
  else if keyCharOf k = some ' ' then
    if a.currentHeaderKey.getLast? = some ':' ∧ a.currentHeaderValue = [] then a
    else if a.currentHeaderValue ≠ [] ∨ a.currentHeaderKey ≠ [] then
      if hasChar a.currentHeaderKey ':' then
        { a with currentHeaderValue := a.currentHeaderValue ++ [' '] }
      else { a with currentHeaderKey := a.currentHeaderKey ++ [' '] }
    else a
  else
    match keyCharOf k with
    | some c =>
      if ¬ hasChar a.currentHeaderKey ':' then
        { a with currentHeaderKey := a.currentHeaderKey ++ [c] }
      else { a with currentHeaderValue := a.currentHeaderValue ++ [c] }
    | none => a

/-- Uppercase hexadecimal digit, as used by the urlencoding crate. -/
def hexDigitUpper (n : Nat) : Char :=
  "0123456789ABCDEF".data.getD n '0'

/-- UTF-8 encoding of one unicode scalar value, as a list of byte values. -/
def utf8Bytes (c : Char) : List Nat :=
  let n := c.toNat
  if n < 0x80 then [n]
  else if n < 0x800 then [0xC0 + n / 0x40, 0x80 + n % 0x40]
  else if n < 0x10000 then
    [0xE0 + n / 0x1000, 0x80 + n / 0x40 % 0x40, 0x80 + n % 0x40]
  else
    [0xF0 + n / 0x40000, 0x80 + n / 0x1000 % 0x40, 0x80 + n / 0x40 % 0x40,
      0x80 + n % 0x40]

/-- The characters the urlencoding crate leaves unencoded (RFC 3986
unreserved). -/
def isUrlUnreserved (c : Char) : Bool :=
  c.isAlphanum || c = '-' || c = '_' || c = '.' || c = '~'

/-- `urlencoding::encode` applied to one character. -/
def percentEncodeChar (c : Char) : Str :=
  if isUrlUnreserved c then [c]
  else (utf8Bytes c).flatMap (fun b => ['%', hexDigitUpper (b / 16), hexDigitUpper (b % 16)])

/-- `urlencoding::encode`: percent-encode every byte outside the unreserved
set. -/
def urlencode (s : Str) : Str :=
  s.flatMap percentEncodeChar

/-- The fallible per-parameter encoding step inside `build_url_with_params`
(src/logic/request.rs): an empty key is an error (constructed, in the Rust
source, with `RequestError::invalid_header`). -/
def encodeParams : List (Str × Str) → Except ReqErr (List Str)
  | [] => .ok []
  | (k, v) :: rest =>
    if k = [] then .error .invalidHeader
    else do
      let tail ← encodeParams rest
      .ok ((urlencode k ++ '=' :: urlencode v) :: tail)

/-- `build_url_with_params` of src/logic/request.rs. -/
def buildUrlWithParams (baseUrl : Str) (params : List (Str × Str)) :
    Except ReqErr Str :=
  if params = [] then .ok baseUrl
  else do
    let parts ← encodeParams params
    let queryString := List.intercalate ['&'] parts
    .ok (baseUrl ++ (if hasChar baseUrl '?' then ['&'] else ['?']) ++ queryString)

/-- `Request::validate_url` of src/logic/request.rs. -/
def requestValidateUrl (r : Request) : Option ReqErr :=
  if r.url = [] then some .invalidUrl
  else if ¬ ("http://".data.isPrefixOf r.url ∨ "https://".data.isPrefixOf r.url) then
    some .invalidUrl
  else none

/-- The per-line loop of `Response::split_headers` (src/logic/response.rs):
blank lines are skipped, lines without a colon are skipped with a warning,
a line whose trimmed key (before the first colon) is empty is a hard error,
other lines are split on the first colon and both sides trimmed. -/
def parseHeaderLines : List Str → Except RespErr (List (Str × Str))
  | [] => .ok []
  | line :: rest =>
    let l := rustTrim line
    if l = [] then parseHeaderLines rest
    else
      match splitAtFirst ':' l with
      | some (k0, v0) =>
        let k := rustTrim k0
        let v := rustTrim v0
        if k = [] then .error .headerParsing
        else do
          let tail ← parseHeaderLines rest
          .ok ((k, v) :: tail)
      | none => parseHeaderLines rest

/-- `Response::split_headers` of src/logic/response.rs. -/
def splitHeaders (headerStr : Str) : Except RespErr (List (Str × Str)) :=
  if rustTrim headerStr = [] then .ok []
  else parseHeaderLines (rustLines headerStr)

/-!
Model of the serde_json value type, parser (`serde_json::from_str::<Value>`)
and pretty printer (`serde_json::to_string_pretty`), the external crate used
by `Response::pretty_print_json` in src/logic/response.rs.

Modelling notes.  Objects follow the crate's default `BTreeMap` map type:
members are kept sorted by key (byte-lexicographic on UTF-8, which equals
code-point-lexicographic), and a duplicate key overwrites the earlier value.
Number values are modelled by their source literal (the crate stores
i64/u64/f64 and re-prints them; integers re-print verbatim, floats re-print
in a shortest form that itself re-parses to the same float, so storing the
literal preserves the formatter's observable fixed-point behaviour).
Unicode escapes for surrogate pairs are not modelled (the model parser
rejects lone and paired surrogate escapes; the printer never emits them).
-/

/-- ASCII decimal digit. -/
def jsonDigit (c : Char) : Bool :=
  48 ≤ c.toNat && c.toNat ≤ 57

/-- Whitespace skipped by the serde_json parser. -/
def isJsonWs (c : Char) : Bool :=
  c = ' ' || c = '\n' || c = '\t' || c = '\r'

/-- Skip parser whitespace. -/
def skipWs (s : Str) : Str :=
  s.dropWhile isJsonWs

/-- The opening brace character (written via its code point). -/
def lbrace : Char := Char.ofNat 123

/-- The closing brace character (written via its code point). -/
def rbrace : Char := Char.ofNat 125

/-- Characters that may occur in a JSON number literal. -/
def isNumChar (c : Char) : Bool :=
  jsonDigit c || c = '-' || c = '+' || c = '.' || c = 'e' || c = 'E'

/-- Consume an optional fraction part of a number literal. -/
def chompFrac : Str → Option Str
  | '.' :: u =>
    match u with
    | d :: _ => if jsonDigit d then some (u.dropWhile jsonDigit) else none
    | [] => none
  | u => some u

/-- Consume an optional exponent part of a number literal. -/
def chompExp : Str → Option Str
  | [] => some []
  | c :: u =>
    if c = 'e' ∨ c = 'E' then
      let u2 :=
        match u with
        | s1 :: w => if s1 = '+' ∨ s1 = '-' then w else s1 :: w
        | [] => []
      match u2 with
      | d :: _ => if jsonDigit d then some (u2.dropWhile jsonDigit) else none
      | [] => none
    else some (c :: u)

/-- Fraction-then-exponent tail check of a number literal. -/
def numTail (t : Str) : Bool :=
  match chompFrac t with
  | some t1 =>
    match chompExp t1 with
    | some [] => true
    | _ => false
  | none => false

/-- Whether a string is one complete JSON number literal. -/
def numLit (s : Str) : Bool :=
  let s1 := if s.head? = some '-' then s.tail else s
  match s1 with
  | [] => false
  | c :: t =>
    if c = '0' then numTail t
    else jsonDigit c && numTail (t.dropWhile jsonDigit)

/-- Lowercase hexadecimal digit (serde_json's escape table). -/
def hexDigitLower (n : Nat) : Char :=
  "0123456789abcdef".data.getD n '0'

/-- Value of one hexadecimal digit character. -/
def hexVal (c : Char) : Option Nat :=
  if 48 ≤ c.toNat ∧ c.toNat ≤ 57 then some (c.toNat - 48)
  else if 97 ≤ c.toNat ∧ c.toNat ≤ 102 then some (c.toNat - 97 + 10)
  else if 65 ≤ c.toNat ∧ c.toNat ≤ 70 then some (c.toNat - 65 + 10)
  else none

/-- The serde_json value type. -/
inductive Json where
  | null
  | bool (b : Bool)
  | num (lit : Str)
  | str (s : Str)
  | arr (items : List Json)
  | obj (members : List (Str × Json))

/-- Byte-lexicographic strict order on strings (the `Ord` used by the
`BTreeMap` holding object members). -/
def strLtB : Str → Str → Bool
  | [], [] => false
  | [], _ :: _ => true
  | _ :: _, [] => false
  | a :: s, b :: t =>
    if a.toNat < b.toNat then true
    else if b.toNat < a.toNat then false
    else strLtB s t

/-- `BTreeMap::insert`: insert a member into a key-sorted member list,
overwriting the value at an equal key. -/
def objInsert (k : Str) (v : Json) : List (Str × Json) → List (Str × Json)
  | [] => [(k, v)]
  | (k1, v1) :: rest =>
    if strLtB k k1 then (k, v) :: (k1, v1) :: rest
    else if strLtB k1 k then (k1, v1) :: objInsert k v rest
    else (k1, v) :: rest

/-- serde_json's string escaping of one character. -/
def escapeChar (c : Char) : Str :=
  if c = '"' then ['\\', '"']
  else if c = '\\' then ['\\', '\\']
  else if c = '\x08' then ['\\', 'b']
  else if c = '\t' then ['\\', 't']
  else if c = '\n' then ['\\', 'n']
  else if c = '\x0c' then ['\\', 'f']
  else if c = '\r' then ['\\', 'r']
  else if c.toNat < 0x20 then
    ['\\', 'u', '0', '0', hexDigitLower (c.toNat / 16), hexDigitLower (c.toNat % 16)]
  else [c]

/-- serde_json's string escaping. -/
def escapeStr (s : Str) : Str :=
  s.flatMap escapeChar

/-- Indentation of the pretty printer: two spaces per depth level. -/
def jsonIndent (d : Nat) : Str :=
  List.replicate (2 * d) ' '

mutual

/-- `serde_json::to_string_pretty` at nesting depth `d`. -/
def render (d : Nat) : Json → Str
  | .null => "null".data
  | .bool true => "true".data
  | .bool false => "false".data
  | .num lit => lit
  | .str s => '"' :: (escapeStr s ++ ['"'])
  | .arr [] => "[]".data
  | .arr (x :: xs) =>
    '[' :: '\n' :: (renderArrItems d (x :: xs) ++ '\n' :: (jsonIndent d ++ [']']))
  | .obj [] => [lbrace, rbrace]
  | .obj (p :: ps) =>
    lbrace :: '\n' :: (renderObjItems d (p :: ps) ++ '\n' :: (jsonIndent d ++ [rbrace]))

/-- Pretty-printed array items, comma-and-newline separated. -/
def renderArrItems (d : Nat) : List Json → Str
  | [] => []
  | [x] => jsonIndent (d + 1) ++ render (d + 1) x
  | x :: y :: xs =>
    jsonIndent (d + 1) ++ render (d + 1) x ++ ',' :: '\n' :: renderArrItems d (y :: xs)

/-- Pretty-printed object members, comma-and-newline separated. -/
def renderObjItems (d : Nat) : List (Str × Json) → Str
  | [] => []
  | [(k, v)] =>
    jsonIndent (d + 1) ++ '"' :: (escapeStr k ++ '"' :: ':' :: ' ' :: render (d + 1) v)
  | (k, v) :: q :: ps =>
    jsonIndent (d + 1) ++ '"' :: (escapeStr k ++ '"' :: ':' :: ' ' :: render (d + 1) v) ++
      ',' :: '\n' :: renderObjItems d (q :: ps)

end

mutual

/-- Parser fuel sufficient for a value (one unit per parser call). -/
def needFuel : Json → Nat
  | .null => 1
  | .bool _ => 1
  | .num _ => 1
  | .str s => s.length + 2
  | .arr [] => 1
  | .arr (x :: xs) => 1 + needFuelItems (x :: xs)
  | .obj [] => 1
  | .obj (p :: ps) => 1 + needFuelMembers (p :: ps)

/-- Parser fuel sufficient for a nonempty array item list. -/
def needFuelItems : List Json → Nat
  | [] => 0
  | x :: xs => 1 + needFuel x + needFuelItems xs

/-- Parser fuel sufficient for a nonempty object member list. -/
def needFuelMembers : List (Str × Json) → Nat
  | [] => 0
  | (k, v) :: ps => 1 + (k.length + 1) + needFuel v + needFuelMembers ps

end

/-- All keys of a member list are strictly greater than `k`. -/
def allKeysGt (k : Str) (ps : List (Str × Json)) : Bool :=
  ps.all (fun p => strLtB k p.1)

/-- Member list strictly sorted by key. -/
def keysSortedB : List (Str × Json) → Bool
  | [] => true
  | p :: ps => allKeysGt p.1 ps && keysSortedB ps

mutual

/-- Canonical values: exactly the values the parser can produce (valid
maximal number literals, key-sorted objects). -/
def canonJ : Json → Bool
  | .null => true
  | .bool _ => true
  | .num lit => numLit lit && lit.all isNumChar
  | .str _ => true
  | .arr xs => canonItems xs
  | .obj ps => canonMembers ps && keysSortedB ps

/-- Canonicity of every array item. -/
def canonItems : List Json → Bool
  | [] => true
  | x :: xs => canonJ x && canonItems xs

/-- Canonicity of every object member value. -/
def canonMembers : List (Str × Json) → Bool
  | [] => true
  | (_, v) :: ps => canonJ v && canonMembers ps

end

/-- Expect a literal continuation, returning the remaining input. -/
def dropLit (lit s : Str) : Option Str :=
  if lit.isPrefixOf s then some (s.drop lit.length) else none

/-- String-body parser: the input follows the opening quote; produces the
decoded contents and the input following the closing quote. -/
def parseJStr : Nat → Str → Option (Str × Str)
  | 0, _ => none
  | fuel + 1, s =>
    match s with
    | [] => none
    | c :: r =>
      if c = '"' then some ([], r)
      else if c = '\\' then
        match r with
        | [] => none
        | e :: r1 =>
          if e = '"' then (parseJStr fuel r1).map (fun p => ('"' :: p.1, p.2))
          else if e = '\\' then (parseJStr fuel r1).map (fun p => ('\\' :: p.1, p.2))
          else if e = '/' then (parseJStr fuel r1).map (fun p => ('/' :: p.1, p.2))
          else if e = 'b' then (parseJStr fuel r1).map (fun p => ('\x08' :: p.1, p.2))
          else if e = 'f' then (parseJStr fuel r1).map (fun p => ('\x0c' :: p.1, p.2))
          else if e = 'n' then (parseJStr fuel r1).map (fun p => ('\n' :: p.1, p.2))
          else if e = 'r' then (parseJStr fuel r1).map (fun p => ('\r' :: p.1, p.2))
          else if e = 't' then (parseJStr fuel r1).map (fun p => ('\t' :: p.1, p.2))
          else if e = 'u' then
            match r1 with
            | h1 :: h2 :: h3 :: h4 :: r2 =>
              match hexVal h1, hexVal h2, hexVal h3, hexVal h4 with
              | some a, some b, some c3, some d4 =>
                let code := a * 4096 + b * 256 + c3 * 16 + d4
                if 0xD800 ≤ code ∧ code < 0xE000 then none
                else (parseJStr fuel r2).map (fun p => (Char.ofNat code :: p.1, p.2))
              | _, _, _, _ => none
            | _ => none
          else none
      else if c.toNat < 0x20 then none
      else (parseJStr fuel r).map (fun p => (c :: p.1, p.2))

mutual

/-- Value parser (one fuel unit per call). -/
def parseV : Nat → Str → Option (Json × Str)
  | 0, _ => none
  | fuel + 1, s =>
    match skipWs s with
    | [] => none
    | c :: r =>
      if c = 'n' then
        match dropLit "ull".data r with
        | some r2 => some (.null, r2)
        | none => none
      else if c = 't' then
        match dropLit "rue".data r with
        | some r2 => some (.bool true, r2)
        | none => none
      else if c = 'f' then
        match dropLit "alse".data r with
        | some r2 => some (.bool false, r2)
        | none => none
      else if c = '"' then
        match parseJStr fuel r with
        | some (cs, r1) => some (.str cs, r1)
        | none => none
      else if c = '[' then
        match skipWs r with
        | [] => none
        | c1 :: r1 =>
          if c1 = ']' then some (.arr [], r1)
          else
            match parseArrItems fuel (c1 :: r1) with
            | some (xs, r2) => some (.arr xs, r2)
            | none => none
      else if c = lbrace then
        match skipWs r with
        | [] => none
        | c1 :: r1 =>
          if c1 = rbrace then some (.obj [], r1)
          else
            match parseObjItems fuel (c1 :: r1) with
            | some (items, r2) =>
              some (.obj (items.foldl (fun m p => objInsert p.1 p.2 m) []), r2)
            | none => none
      else if jsonDigit c || c = '-' then
        let run := (c :: r).takeWhile isNumChar
        if numLit run then some (.num run, (c :: r).drop run.length) else none
      else none

/-- Array item list parser (after the opening bracket, first item pending). -/
def parseArrItems : Nat → Str → Option (List Json × Str)
  | 0, _ => none
  | fuel + 1, s =>
    match parseV fuel s with
    | some (v, r) =>
      match skipWs r with
      | [] => none
      | c :: r1 =>
        if c = ',' then
          match parseArrItems fuel r1 with
          | some (xs, r2) => some (v :: xs, r2)
          | none => none
        else if c = ']' then some ([v], r1)
        else none
    | none => none

/-- Object member list parser (after the opening brace, first member
pending); members are returned in textual order. -/
def parseObjItems : Nat → Str → Option (List (Str × Json) × Str)
  | 0, _ => none
  | fuel + 1, s =>
    match skipWs s with
    | [] => none
    | c :: r =>
      if c = '"' then
        match parseJStr fuel r with
        | some (k, r1) =>
          match skipWs r1 with
          | [] => none
          | c1 :: r2 =>
            if c1 = ':' then
              match parseV fuel r2 with
              | some (v, r3) =>
                match skipWs r3 with
                | [] => none
                | c2 :: r4 =>
                  if c2 = ',' then
                    match parseObjItems fuel r4 with
                    | some (items, r5) => some ((k, v) :: items, r5)
                    | none => none
                  else if c2 = rbrace then some ([(k, v)], r4)
                  else none
              | none => none
            else none
        | none => none
      else none

end

/-- `serde_json::from_str::<Value>`: parse a complete document (trailing
whitespace allowed). -/
def jsonParse (s : Str) : Option Json :=
  match parseV (s.length + 1) s with
  | some (v, r) => if skipWs r = [] then some v else none
  | none => none

/-- `Response::pretty_print_json` of src/logic/response.rs: empty (after
trim) input yields the empty string; a parseable JSON document is
re-serialized with 2-space indentation; anything else is returned unchanged.
The `JsonFormatting` error of the Rust signature comes from the serializer,
which cannot fail on a `Value`, so this function always returns `ok`. -/
def prettyPrintJson (raw : Str) : Except RespErr Str :=
  if rustTrim raw = [] then .ok []
  else
    match jsonParse (rustTrim raw) with
    | some v => .ok (render 0 v)
    | none => .ok raw

/-- `Response::new` of src/logic/response.rs. -/
def responseNew (statusCode : Nat) (headers body : Str) : Except RespErr ResponseM := do
  let hs ← splitHeaders headers
  let fb ← prettyPrintJson body
  .ok { statusCode := statusCode, headers := hs, body := fb }

/-- `Response::new_unchecked` of src/logic/response.rs. -/
def responseNewUnchecked (statusCode : Nat) (headers body : Str) : ResponseM :=
  { statusCode := statusCode
    headers :=
      match splitHeaders headers with
      | .ok l => l
      | .error _ => []
    body :=
      match prettyPrintJson body with
      | .ok s => s
      | .error _ => body }

/-! Claims C3, C4, C5: key-event routing facts of src/main.rs. -/

/-- The state after: entering the body editor, typing a body character,
leaving the editor, moving to the Url section, entering the url editor,
typing a url and committing it with Enter. -/
def appC3 : App :=
  runKeys appNew
    [.ch 'i', .ch 'b', .esc, .ctrlK, .ch 'u', .ch 'h', .ch 't', .ch 't', .ch 'p',
      .ch ':', .ch '/', .ch '/', .ch 'a', .enter]

/-- C3 (code bug exhibit): after an explicit commit (Enter in EditingUrl) the
validation of the dispatch path passes and the send arm would dispatch the
selected tab's stored request, but that stored request has no body even
though the edit buffers hold the body text the user typed: the commit wrote
only the url, and nothing on the send path synchronizes the buffers into the
tab, so the dispatched request does not reflect the edit buffers. -/
theorem claim_C3_commit_does_not_sync_tab :
    sendWouldDispatch appC3 = true ∧
    appC3.bodyInput = "b".data ∧
    (bufferRequest appC3).body = some "b".data ∧
    (dispatchedRequest appC3).url = "http://a".data ∧
    (dispatchedRequest appC3).body = none := by decide

/-- C4 counterexample: the move-section actions are not cyclic; the next
section from Response is Response itself (not Url), and the previous section
from Url is Url itself (not Response). -/
theorem claim_C4_counterexample :
    navigateSectionDown CurrentScreen.Response = CurrentScreen.Response ∧
    navigateSectionDown CurrentScreen.Response ≠ CurrentScreen.Url ∧
    navigateSectionUp CurrentScreen.Url = CurrentScreen.Url ∧
    navigateSectionUp CurrentScreen.Url ≠ CurrentScreen.Response := by decide

/-- C4 (amended): the three viewing sections form a linear order
Url → Values → Response saturating at both ends: next-section maps Url to
Values, Values to Response and leaves Response in place; previous-section
maps Response to Values, Values to Url and leaves Url in place; and the
Ctrl+j / Ctrl+k arms of the key router implement exactly these maps on the
viewing screens while the method dropdown is closed. -/
theorem claim_C4_sections_linear :
    (navigateSectionDown .Url = .Values ∧ navigateSectionDown .Values = .Response ∧
      navigateSectionDown .Response = .Response ∧
      navigateSectionUp .Response = .Values ∧ navigateSectionUp .Values = .Url ∧
      navigateSectionUp .Url = .Url) ∧
    ∀ a : App, a.methodDropdownOpen = false →
      (a.currentScreen = .Url ∨ a.currentScreen = .Values ∨ a.currentScreen = .Response) →
      (mainStep a .ctrlJ).currentScreen = navigateSectionDown a.currentScreen ∧
        (mainStep a .ctrlK).currentScreen = navigateSectionUp a.currentScreen := by
  refine ⟨by decide, ?_⟩
  intro a hdd hv
  obtain h | h | h := hv <;>
    simp [mainStep, h, hdd, viewingFirstMatch, viewingSecondMatch, keyCharOf,
      navigateSectionDown, navigateSectionUp] <;>
    split <;> simp

/-- C4 witness for the amended router conjunct, at the initial state. -/
theorem claim_C4_witness :
    appNew.methodDropdownOpen = false ∧
    (mainStep appNew .ctrlJ).currentScreen = navigateSectionDown appNew.currentScreen ∧
    (mainStep appNew .ctrlK).currentScreen = navigateSectionUp appNew.currentScreen := by
  refine ⟨by decide, ?_⟩
  exact claim_C4_sections_linear.2 appNew (by decide) (by decide)

/-- C5 (code bug exhibit): in the header editor of the running binary the
delimiter keypress is a no-op (the Char arm for the colon contains only a
comment), so after typing a, :, b the whole text sits in the key accumulator
and the value accumulator is still empty; the superseded handler revision in
src/handlers/keyboard.rs does switch on the first colon, leaving key a: and
value b.  The parameter editor behaves the same way for its = delimiter. -/
theorem claim_C5_delimiter_never_switches :
    (runKeys appNew [.ch 'l', .ch 'i', .ch 'a', .ch ':', .ch 'b']).currentHeaderKey =
        "ab".data ∧
    (runKeys appNew [.ch 'l', .ch 'i', .ch 'a', .ch ':', .ch 'b']).currentHeaderValue = [] ∧
    ([Key.ch 'a', Key.ch ':', Key.ch 'b'].foldl editingHeadersStepRev
        (runKeys appNew [.ch 'l', .ch 'i'])).currentHeaderKey = "a:".data ∧
    ([Key.ch 'a', Key.ch ':', Key.ch 'b'].foldl editingHeadersStepRev
        (runKeys appNew [.ch 'l', .ch 'i'])).currentHeaderValue = "b".data ∧
    (runKeys appNew [.ch 'l', .ch 'l', .ch 'i', .ch 'x', .ch '=', .ch 'y']).currentParamKey =
        "xy".data ∧
    (runKeys appNew [.ch 'l', .ch 'l', .ch 'i', .ch 'x', .ch '=', .ch 'y']).currentParamValue =
        [] := by decide

/-! Claim C6: header / parameter commit semantics. -/

/-- C6 counterexample: committing with the non-empty key Foo and an empty
current value pushes nothing onto the committed header list (the claim says
the pair (Foo, empty) is pushed), yet still clears the accumulators and
reports no error; and committing with the delimiter-free key space-K and the
value v pushes the key exactly as typed, space included, where the claim
says the pushed pair is trimmed on both sides. -/
theorem claim_C6_counterexample :
    (addHeader { appNew with currentHeaderKey := "Foo".data }).2 = none ∧
    (addHeader { appNew with currentHeaderKey := "Foo".data }).1.headersInput = [] ∧
    (addHeader { appNew with currentHeaderKey := "Foo".data }).1.headersInput ≠
      [("Foo".data, [])] ∧
    (addHeader { appNew with currentHeaderKey := "Foo".data }).1.currentHeaderKey = [] ∧
    (addHeader { appNew with currentHeaderKey := " K".data, currentHeaderValue := "v".data }).1.headersInput = [(" K".data, "v".data)] ∧
    (addHeader { appNew with currentHeaderKey := " K".data, currentHeaderValue := "v".data }).1.headersInput ≠ [("K".data, "v".data)] ∧
    (addHeader { appNew with currentHeaderKey := " K".data, currentHeaderValue := "v".data }).2 = none := by
  decide

/-- C6 (amended): in both editors, committing with a non-empty current key
rejects, leaving the whole state unchanged, when the trimmed key is empty or
(headers only) the key contains a newline or carriage return; when the key
itself contains the delimiter (a colon for headers, an equals sign for
parameters) it is split at the first delimiter, both sides are trimmed, an
empty trimmed left side is rejected, and otherwise the trimmed pair is
pushed; when the key has no delimiter and the current value is non-empty,
the pair (key as typed for headers, trimmed key for parameters; trimmed
value) is pushed, headers rejecting a trimmed value containing a newline or
carriage return; when the current value is empty, no pair is pushed at all;
every non-rejected commit clears both accumulators; and committing with an
empty current key exits the editor back to Values. -/
theorem claim_C6_commit_semantics (a : App) :
    (a.currentHeaderKey = [] → addHeader a = (a, none)) ∧
    (a.currentHeaderKey ≠ [] → rustTrim a.currentHeaderKey = [] →
      addHeader a = (a, some .invalidHeader)) ∧
    (a.currentHeaderKey ≠ [] → rustTrim a.currentHeaderKey ≠ [] →
      (hasChar a.currentHeaderKey '\n' || hasChar a.currentHeaderKey '\r') = true →
      addHeader a = (a, some .invalidHeader)) ∧
    (∀ l r, a.currentHeaderKey ≠ [] → rustTrim a.currentHeaderKey ≠ [] →
      (hasChar a.currentHeaderKey '\n' || hasChar a.currentHeaderKey '\r') = false →
      splitAtFirst ':' a.currentHeaderKey = some (l, r) →
      hasChar a.currentHeaderKey ':' = true →
      (rustTrim l = [] → addHeader a = (a, some .invalidHeader)) ∧
      (rustTrim l ≠ [] →
        addHeader a =
          ({ a with
              headersInput := a.headersInput ++ [(rustTrim l, rustTrim r)]
              currentHeaderKey := []
              currentHeaderValue := [] }, none))) ∧
    (a.currentHeaderKey ≠ [] → rustTrim a.currentHeaderKey ≠ [] →
      (hasChar a.currentHeaderKey '\n' || hasChar a.currentHeaderKey '\r') = false →
      hasChar a.currentHeaderKey ':' = false →
      a.currentHeaderValue ≠ [] →
      ((hasChar (rustTrim a.currentHeaderValue) '\n' ||
          hasChar (rustTrim a.currentHeaderValue) '\r') = true →
        addHeader a = (a, some .invalidHeader)) ∧
      ((hasChar (rustTrim a.currentHeaderValue) '\n' ||
          hasChar (rustTrim a.currentHeaderValue) '\r') = false →
        addHeader a =
          ({ a with
              headersInput :=
                a.headersInput ++ [(a.currentHeaderKey, rustTrim a.currentHeaderValue)]
              currentHeaderKey := []
              currentHeaderValue := [] }, none))) ∧
    (a.currentHeaderKey ≠ [] → rustTrim a.currentHeaderKey ≠ [] →
      (hasChar a.currentHeaderKey '\n' || hasChar a.currentHeaderKey '\r') = false →
      hasChar a.currentHeaderKey ':' = false →
      a.currentHeaderValue = [] →
      addHeader a = ({ a with currentHeaderKey := [], currentHeaderValue := [] }, none)) ∧
    (a.currentParamKey = [] → addParam a = (a, none)) ∧
    (a.currentParamKey ≠ [] → rustTrim a.currentParamKey = [] →
      addParam a = (a, some .invalidParameter)) ∧
    (∀ l r, a.currentParamKey ≠ [] → rustTrim a.currentParamKey ≠ [] →
      splitAtFirst '=' a.currentParamKey = some (l, r) →
      hasChar a.currentParamKey '=' = true →
      (rustTrim l = [] → addParam a = (a, some .invalidParameter)) ∧
      (rustTrim l ≠ [] →
        addParam a =
          ({ a with
              paramsInput := a.paramsInput ++ [(rustTrim l, rustTrim r)]
              currentParamKey := []
              currentParamValue := [] }, none))) ∧
    (a.currentParamKey ≠ [] → rustTrim a.currentParamKey ≠ [] →
      hasChar a.currentParamKey '=' = false →
      a.currentParamValue ≠ [] →
      addParam a =
        ({ a with
            paramsInput :=
              a.paramsInput ++ [(rustTrim a.currentParamKey, rustTrim a.currentParamValue)]
            currentParamKey := []
            currentParamValue := [] }, none)) ∧
    (a.currentParamKey ≠ [] → rustTrim a.currentParamKey ≠ [] →
      hasChar a.currentParamKey '=' = false →
      a.currentParamValue = [] →
      addParam a = ({ a with currentParamKey := [], currentParamValue := [] }, none)) ∧
    (a.currentScreen = .EditingHeaders → a.currentHeaderKey = [] →
      mainStep a .enter = { a with currentScreen := .Values }) ∧
    (a.currentScreen = .EditingParams → a.currentParamKey = [] →
      mainStep a .enter = { a with currentScreen := .Values }) := by
  refine ⟨?_, ?_, ?_, ?_, ?_, ?_, ?_, ?_, ?_, ?_, ?_, ?_, ?_⟩
  · intro h1
    simp [addHeader, h1]
  · intro h1 h2
    simp [addHeader, h1, h2]
  · intro h1 h2 h3
    simp [addHeader, h1, h2, h3]
  · intro l r h1 h2 h3 hsplit hcolon
    constructor
    · intro hl
      simp [addHeader, h1, h2, h3, hcolon, hsplit, hl]
    · intro hl
      simp [addHeader, h1, h2, h3, hcolon, hsplit, hl]
  · intro h1 h2 h3 hcolon hv
    constructor
    · intro hnl
      simp [addHeader, h1, h2, h3, hcolon, hv, hnl]
    · intro hnl
      simp [addHeader, h1, h2, h3, hcolon, hv, hnl]
  · intro h1 h2 h3 hcolon hv
    simp [addHeader, h1, h2, h3, hcolon, hv]
  · intro h1
    simp [addParam, h1]
  · intro h1 h2
    simp [addParam, h1, h2]
  · intro l r h1 h2 hsplit heq
    constructor
    · intro hl
      simp [addParam, h1, h2, heq, hsplit, hl]
    · intro hl
      simp [addParam, h1, h2, heq, hsplit, hl]
  · intro h1 h2 heq hv
    simp [addParam, h1, h2, heq, hv]
  · intro h1 h2 heq hv
    simp [addParam, h1, h2, heq, hv]
  · intro hs hk
    simp [mainStep, hs, editingHeadersStep, hk]
  · intro hs hk
    simp [mainStep, hs, editingParamsStep, hk]

/-- C6 witness: a concrete commit through the split-on-first-colon path. -/
theorem claim_C6_witness :
    (addHeader { appNew with currentHeaderKey := " K : v w ".data }).1.headersInput =
      [("K".data, "v w".data)] ∧
    (addHeader { appNew with currentHeaderKey := " K : v w ".data }).2 = none := by
  have h :=
    ((claim_C6_commit_semantics
          { appNew with currentHeaderKey := " K : v w ".data }).2.2.2.1
        " K ".data " v w ".data (by decide) (by decide) (by decide) (by decide)
        (by decide)).2 (by decide)
  rw [h]
  constructor
  · decide
  · decide

/-! Claims C7, C8: URL assembly and parameter validation. -/

theorem encodeParams_ok (ps : List (Str × Str)) (h : ∀ p ∈ ps, p.1 ≠ []) :
    encodeParams ps = .ok (ps.map (fun p => urlencode p.1 ++ '=' :: urlencode p.2)) := by
  induction ps with
  | nil => rfl
  | cons p ps ih =>
    have hp : p.1 ≠ [] := h p (List.mem_cons_self p ps)
    have hrest : ∀ q ∈ ps, q.1 ≠ [] := fun q hq => h q (List.mem_cons_of_mem p hq)
    simp only [encodeParams, hp, if_neg, if_false, ih hrest, List.map_cons]
    rfl

/-- C7: for a non-empty parameter list with non-empty keys, request assembly
percent-encodes each key and value independently, joins the pairs with the
ampersand as key=value, and appends the query string to the URL after a
question mark when the URL contains none and after an ampersand otherwise
(keeping the URL, and so any pre-existing query, verbatim); in particular the
two concrete assemblies of the spec hold. -/
theorem claim_C7_url_assembly :
    (∀ (url : Str) (ps : List (Str × Str)), ps ≠ [] → (∀ p ∈ ps, p.1 ≠ []) →
      buildUrlWithParams url ps =
        .ok (url ++ (if hasChar url '?' then ['&'] else ['?']) ++
          List.intercalate ['&']
            (ps.map (fun p => urlencode p.1 ++ '=' :: urlencode p.2)))) ∧
    buildUrlWithParams "https://api.example.com/users".data
        [("limit".data, "10".data), ("page".data, "1".data),
          ("search".data, "john doe".data)] =
      .ok "https://api.example.com/users?limit=10&page=1&search=john%20doe".data ∧
    buildUrlWithParams "https://api.example.com/users?existing=true".data
        [("limit".data, "10".data)] =
      .ok "https://api.example.com/users?existing=true&limit=10".data := by
  refine ⟨?_, by decide, by decide⟩
  intro url ps hne hkeys
  unfold buildUrlWithParams
  rw [if_neg hne]
  rw [encodeParams_ok ps hkeys]
  rfl

/-- C7 witness at a concrete input. -/
theorem claim_C7_witness :
    buildUrlWithParams "https://a.b".data [("x".data, "1".data)] =
      .ok "https://a.b?x=1".data := by
  have h := claim_C7_url_assembly.1 "https://a.b".data [("x".data, "1".data)]
    (by decide) (by decide)
  rw [h]
  decide

theorem checkParamsList_bad (ps : List (Str × Str))
    (h : ∃ p ∈ ps, rustTrim p.1 = []) :
    checkParamsList ps = some .invalidParameter := by
  induction ps with
  | nil => simp at h
  | cons p ps ih =>
    by_cases hp : rustTrim p.1 = []
    · simp [checkParamsList, hp]
    · obtain ⟨q, hq, hqt⟩ := h
      rcases List.mem_cons.mp hq with hqp | hqps
      · rw [hqp] at hqt
        exact absurd hqt hp
      · simp [checkParamsList, hp]
        exact ih ⟨q, hqps, hqt⟩

/-- C8: the validation run on the dispatch path before any network traffic
rejects every request whose parameter list contains a key that is empty
after trimming, so the send arm never dispatches such a request; and when
the url and header checks pass, the rejection is classified exactly as an
InvalidParameter error, not any other kind. -/
theorem claim_C8_param_validation (a : App) :
    ((∃ p ∈ a.paramsInput, rustTrim p.1 = []) →
      validateCurrentRequest a ≠ none ∧ sendWouldDispatch a = false) ∧
    (rustTrim a.urlInput ≠ [] →
      ("http://".data.isPrefixOf a.urlInput ∨ "https://".data.isPrefixOf a.urlInput) →
      checkHeadersList a.headersInput = none →
      (∃ p ∈ a.paramsInput, rustTrim p.1 = []) →
      validateCurrentRequest a = some .invalidParameter) := by
  constructor
  · intro hbad
    have hne : validateCurrentRequest a ≠ none := by
      unfold validateCurrentRequest
      split
      · simp
      · split
        · simp
        · cases h3 : checkHeadersList a.headersInput with
          | some e => simp only [h3]; simp
          | none =>
            simp only [h3]
            rw [checkParamsList_bad a.paramsInput hbad]
            simp
    refine ⟨hne, ?_⟩
    unfold sendWouldDispatch
    cases hv : validateCurrentRequest a with
    | none => exact absurd hv hne
    | some e => simp
  · intro h1 h2 h3 hbad
    unfold validateCurrentRequest
    rw [if_neg h1, if_neg (not_not_intro h2)]
    simp only [h3]
    exact checkParamsList_bad a.paramsInput hbad

/-- C8 witness: a whitespace-only parameter key is rejected as
InvalidParameter on an otherwise valid request. -/
theorem claim_C8_witness :
    validateCurrentRequest
        { appNew with urlInput := "http://a".data, paramsInput := [(" ".data, "v".data)] } =
      some RErr.invalidParameter ∧
    sendWouldDispatch
        { appNew with urlInput := "http://a".data, paramsInput := [(" ".data, "v".data)] } =
      false := by
  constructor
  · exact (claim_C8_param_validation _).2 (by decide) (by decide) (by decide)
      ⟨(" ".data, "v".data), by decide, by decide⟩
  · exact ((claim_C8_param_validation _).1
      ⟨(" ".data, "v".data), by decide, by decide⟩).2

/-! Rust trim lemmas and claim C9. -/

theorem head?_dropWhile_not (p : Char → Bool) (l : Str) :
    ∀ c, (l.dropWhile p).head? = some c → p c = false := by
  induction l with
  | nil => intro c hc; simp at hc
  | cons a t ih =>
    intro c hc
    rw [List.dropWhile_cons] at hc
    by_cases hpa : p a
    · rw [if_pos hpa] at hc
      exact ih c hc
    · rw [if_neg hpa] at hc
      simp at hc
      rw [← hc]
      simpa using hpa

theorem dropWhile_is_suffix (p : Char → Bool) (l : Str) :
    ∃ t, l = t ++ l.dropWhile p := by
  induction l with
  | nil => exact ⟨[], rfl⟩
  | cons a t ih =>
    rw [List.dropWhile_cons]
    by_cases hpa : p a
    · rw [if_pos hpa]
      obtain ⟨u, hu⟩ := ih
      exact ⟨a :: u, by rw [List.cons_append, ← hu]⟩
    · rw [if_neg hpa]
      exact ⟨[], rfl⟩

theorem rustTrim_eq_self (s : Str)
    (hhead : ∀ c, s.head? = some c → isRustWhitespace c = false)
    (hlast : ∀ c, s.getLast? = some c → isRustWhitespace c = false) :
    rustTrim s = s := by
  unfold rustTrim
  have h1 : s.dropWhile isRustWhitespace = s := by
    cases s with
    | nil => rfl
    | cons c t =>
      have hc := hhead c rfl
      rw [List.dropWhile_cons, if_neg (by simp [hc])]
  rw [h1]
  have h2 : s.reverse.dropWhile isRustWhitespace = s.reverse := by
    cases hr : s.reverse with
    | nil => rfl
    | cons c t =>
      have hc : s.getLast? = some c := by
        rw [← List.head?_reverse, hr]
        rfl
      have hcw := hlast c hc
      rw [List.dropWhile_cons, if_neg (by simp [hcw])]
  rw [h2, List.reverse_reverse]

theorem rustTrim_last (s : Str) :
    ∀ c, (rustTrim s).getLast? = some c → isRustWhitespace c = false := by
  intro c hc
  unfold rustTrim at hc
  rw [List.getLast?_reverse] at hc
  exact head?_dropWhile_not _ _ c hc

theorem rustTrim_head (s : Str) :
    ∀ c, (rustTrim s).head? = some c → isRustWhitespace c = false := by
  intro c hc
  unfold rustTrim at hc
  rw [List.head?_reverse] at hc
  set y : Str := (s.dropWhile isRustWhitespace).reverse with hy
  obtain ⟨t, ht⟩ := dropWhile_is_suffix isRustWhitespace y
  cases hx : y.dropWhile isRustWhitespace with
  | nil => rw [hx] at hc; simp at hc
  | cons d u =>
    rw [hx] at ht hc
    have : y.getLast? = some c := by
      rw [ht, List.getLast?_append, hc]
      rfl
    rw [hy, List.getLast?_reverse] at this
    exact head?_dropWhile_not _ _ c this

theorem rustTrim_idem (s : Str) : rustTrim (rustTrim s) = rustTrim s :=
  rustTrim_eq_self _ (rustTrim_head s) (rustTrim_last s)

theorem parseHeaderLines_keys (lines : List Str) (l : List (Str × Str))
    (h : parseHeaderLines lines = .ok l) :
    ∀ kv ∈ l, rustTrim kv.1 = kv.1 ∧ kv.1 ≠ [] := by
  induction lines generalizing l with
  | nil =>
    have hl : l = [] := by simpa [parseHeaderLines] using h.symm
    rw [hl]
    intro kv hkv
    simp at hkv
  | cons line rest ih =>
    unfold parseHeaderLines at h
    by_cases hblank : rustTrim line = []
    · rw [if_pos hblank] at h
      exact ih l h
    · rw [if_neg hblank] at h
      cases hsp : splitAtFirst ':' (rustTrim line) with
      | none =>
        rw [hsp] at h
        exact ih l h
      | some kv0 =>
        obtain ⟨k0, v0⟩ := kv0
        rw [hsp] at h
        simp only at h
        by_cases hk : rustTrim k0 = []
        · rw [if_pos hk] at h
          exact absurd h (by simp)
        · rw [if_neg hk] at h
          cases htail : parseHeaderLines rest with
          | error e =>
            rw [htail] at h
            exact absurd h (by simp [Bind.bind, Except.bind])
          | ok tail =>
            rw [htail] at h
            have hl : l = (rustTrim k0, rustTrim v0) :: tail := by
              have : Except.ok ((rustTrim k0, rustTrim v0) :: tail) =
                  (Except.ok l : Except RespErr (List (Str × Str))) := h
              simpa using this.symm
            rw [hl]
            intro kv hkv
            rcases List.mem_cons.mp hkv with hkv | hkv
            · rw [hkv]
              exact ⟨rustTrim_idem k0, hk⟩
            · exact ih tail htail kv hkv

theorem parseHeaderLines_error_of_emptyKey :
    ∀ (lines : List Str) (line k v : Str), line ∈ lines →
      rustTrim line ≠ [] → splitAtFirst ':' (rustTrim line) = some (k, v) →
      rustTrim k = [] → parseHeaderLines lines = .error .headerParsing := by
  intro lines
  induction lines with
  | nil =>
    intro line k v hmem
    simp at hmem
  | cons l0 rest ih =>
    intro line k v hmem hnb hsp hk
    rcases List.mem_cons.mp hmem with heq | hmem2
    · subst heq
      unfold parseHeaderLines
      rw [if_neg hnb, hsp]
      simp only
      rw [if_pos hk]
    · unfold parseHeaderLines
      by_cases hb0 : rustTrim l0 = []
      · rw [if_pos hb0]
        exact ih line k v hmem2 hnb hsp hk
      · rw [if_neg hb0]
        cases hsp0 : splitAtFirst ':' (rustTrim l0) with
        | none => exact ih line k v hmem2 hnb hsp hk
        | some kv0 =>
          obtain ⟨k0, v0⟩ := kv0
          simp only
          by_cases hk0 : rustTrim k0 = []
          · rw [if_pos hk0]
          · rw [if_neg hk0]
            rw [ih line k v hmem2 hnb hsp hk]
            rfl

/-- C9 counterexample: for the blob Good-colon-one newline colon-space-value
the unchecked constructor does not drop just the offending empty-key line:
it stores no headers at all, although the first line parses fine on its own,
because the unchecked path reruns the same strict parser and replaces its
error by the empty list. -/
theorem claim_C9_counterexample :
    (responseNewUnchecked 200 "Good: one\n: value".data []).headers = [] ∧
    (responseNewUnchecked 200 "Good: one\n: value".data []).headers ≠
      [("Good".data, "one".data)] ∧
    splitHeaders "Good: one".data = .ok [("Good".data, "one".data)] ∧
    splitHeaders "Good: one\n: value".data = .error .headerParsing := by
  decide

/-- C9 (amended): for the header blob consisting of the single line
colon-space-value (whose trimmed key is empty) the checked Response
constructor returns a hard HeaderParsing error for every status code and
body, and in general any line whose trim splits at a colon into an empty
trimmed key makes the strict parser fail; the unchecked constructor never
fails, but it does not drop just the offending line: it reruns the same
strict parser and substitutes the empty header list whenever that parser
errors, so a blob containing such a line loses every header line,
well-formed ones included; consequently every header pair the unchecked
constructor does store has a trimmed, non-empty key. -/
theorem claim_C9_header_blob_boundary :
    (∀ (c : Nat) (b : Str), responseNew c ": value".data b = .error .headerParsing) ∧
    (∀ (c : Nat) (b : Str), (responseNewUnchecked c ": value".data b).headers = []) ∧
    (∀ (lines : List Str) (line k v : Str), line ∈ lines →
      rustTrim line ≠ [] → splitAtFirst ':' (rustTrim line) = some (k, v) →
      rustTrim k = [] → parseHeaderLines lines = .error .headerParsing) ∧
    (∀ (c : Nat) (h b : Str) (e : RespErr), splitHeaders h = .error e →
      (responseNewUnchecked c h b).headers = []) ∧
    (∀ (c : Nat) (h b : Str) (kv : Str × Str),
      kv ∈ (responseNewUnchecked c h b).headers → rustTrim kv.1 = kv.1 ∧ kv.1 ≠ []) := by
  have hsp : splitHeaders ": value".data = .error .headerParsing := by decide
  refine ⟨?_, ?_, parseHeaderLines_error_of_emptyKey, ?_, ?_⟩
  · intro c b
    unfold responseNew
    rw [hsp]
    rfl
  · intro c b
    unfold responseNewUnchecked
    rw [hsp]
  · intro c h b e hsh
    unfold responseNewUnchecked
    rw [hsh]
  · intro c h b kv hmem
    unfold responseNewUnchecked at hmem
    simp only at hmem
    cases hsh : splitHeaders h with
    | error e =>
      rw [hsh] at hmem
      simp at hmem
    | ok l =>
      rw [hsh] at hmem
      simp only at hmem
      unfold splitHeaders at hsh
      by_cases htrim : rustTrim h = []
      · rw [if_pos htrim] at hsh
        have : l = [] := by simpa using hsh.symm
        rw [this] at hmem
        simp at hmem
      · rw [if_neg htrim] at hsh
        exact parseHeaderLines_keys _ l hsh kv hmem

/-- C9 witness: a concrete good header pair stored by the unchecked
constructor has a trimmed non-empty key. -/
theorem claim_C9_witness :
    rustTrim "Foo".data = "Foo".data ∧ "Foo".data ≠ ([] : Str) :=
  claim_C9_header_blob_boundary.2.2.2.2 200 "Foo: bar".data [] ("Foo".data, "bar".data)
    (by decide)

/-! Claim C10 machinery, part 1: the key order and BTreeMap insert. -/

theorem strLtB_asymm : ∀ a b : Str, strLtB a b = true → strLtB b a = false := by
  intro a
  induction a with
  | nil =>
    intro b h
    cases b with
    | nil => simp [strLtB] at h
    | cons y t => simp [strLtB]
  | cons x s ih =>
    intro b h
    cases b with
    | nil => simp [strLtB] at h
    | cons y t =>
      unfold strLtB at h ⊢
      by_cases h1 : x.toNat < y.toNat
      · rw [if_neg (by omega : ¬ y.toNat < x.toNat), if_pos h1]
      · rw [if_neg h1] at h
        by_cases h2 : y.toNat < x.toNat
        · rw [if_pos h2] at h
          exact absurd h (by simp)
        · rw [if_neg h2] at h
          rw [if_neg h2, if_neg h1]
          exact ih t h

theorem strLtB_trans : ∀ a b c : Str, strLtB a b = true → strLtB b c = true →
    strLtB a c = true := by
  intro a
  induction a with
  | nil =>
    intro b c hab hbc
    cases c with
    | nil =>
      cases b with
      | nil => exact hab
      | cons y t => simp [strLtB] at hbc
    | cons z u => simp [strLtB]
  | cons x s ih =>
    intro b c hab hbc
    cases b with
    | nil => simp [strLtB] at hab
    | cons y t =>
      cases c with
      | nil => simp [strLtB] at hbc
      | cons z u =>
        unfold strLtB at hab hbc ⊢
        by_cases hxy : x.toNat < y.toNat
        · by_cases hyz : y.toNat < z.toNat
          · rw [if_pos (by omega : x.toNat < z.toNat)]
          · rw [if_neg hyz] at hbc
            by_cases hzy : z.toNat < y.toNat
            · rw [if_pos hzy] at hbc
              exact absurd hbc (by simp)
            · rw [if_pos (by omega : x.toNat < z.toNat)]
        · rw [if_neg hxy] at hab
          by_cases hyx : y.toNat < x.toNat
          · rw [if_pos hyx] at hab
            exact absurd hab (by simp)
          · rw [if_neg hyx] at hab
            by_cases hyz : y.toNat < z.toNat
            · rw [if_pos (by omega : x.toNat < z.toNat)]
            · rw [if_neg hyz] at hbc
              by_cases hzy : z.toNat < y.toNat
              · rw [if_pos hzy] at hbc
                exact absurd hbc (by simp)
              · rw [if_neg hzy] at hbc
                rw [if_neg (by omega : ¬ x.toNat < z.toNat),
                  if_neg (by omega : ¬ z.toNat < x.toNat)]
                exact ih t u hab hbc

theorem objInsert_append (k : Str) (v : Json) :
    ∀ ps : List (Str × Json), (∀ q ∈ ps, strLtB q.1 k = true) →
      objInsert k v ps = ps ++ [(k, v)] := by
  intro ps
  induction ps with
  | nil => intro h; rfl
  | cons q rest ih =>
    intro h
    have hq : strLtB q.1 k = true := h q (List.mem_cons_self q rest)
    obtain ⟨k1, v1⟩ := q
    unfold objInsert
    rw [if_neg (by rw [strLtB_asymm k1 k hq]; simp), if_pos hq]
    rw [ih (fun r hr => h r (List.mem_cons_of_mem _ hr))]
    rfl

theorem keysSortedB_cons (p : Str × Json) (ps : List (Str × Json)) :
    keysSortedB (p :: ps) = (allKeysGt p.1 ps && keysSortedB ps) := rfl

theorem keysSortedB_append_cross :
    ∀ (xs ys : List (Str × Json)), keysSortedB (xs ++ ys) = true →
      ∀ q ∈ xs, ∀ r ∈ ys, strLtB q.1 r.1 = true := by
  intro xs
  induction xs with
  | nil => intro ys h q hq; simp at hq
  | cons p xs ih =>
    intro ys h q hq r hr
    rw [List.cons_append, keysSortedB_cons] at h
    have h1 : allKeysGt p.1 (xs ++ ys) = true := by
      have := (Bool.and_eq_true _ _).mp h
      exact this.1
    have h2 : keysSortedB (xs ++ ys) = true := by
      have := (Bool.and_eq_true _ _).mp h
      exact this.2
    rcases List.mem_cons.mp hq with hqp | hqxs
    · rw [hqp]
      unfold allKeysGt at h1
      rw [List.all_eq_true] at h1
      exact h1 r (List.mem_append_right xs hr)
    · exact ih ys h2 q hqxs r hr

theorem keysSortedB_append_right :
    ∀ (xs ys : List (Str × Json)), keysSortedB (xs ++ ys) = true →
      keysSortedB ys = true := by
  intro xs
  induction xs with
  | nil => intro ys h; exact h
  | cons p xs ih =>
    intro ys h
    rw [List.cons_append, keysSortedB_cons, Bool.and_eq_true] at h
    exact ih ys h.2

theorem foldObjInsert_sorted :
    ∀ (ps acc : List (Str × Json)), keysSortedB (acc ++ ps) = true →
      ps.foldl (fun m p => objInsert p.1 p.2 m) acc = acc ++ ps := by
  intro ps
  induction ps with
  | nil => intro acc h; simp
  | cons p ps ih =>
    intro acc h
    rw [List.foldl_cons]
    have hall : ∀ q ∈ acc, strLtB q.1 p.1 = true := by
      intro q hq
      exact keysSortedB_append_cross acc (p :: ps) h q hq p (List.mem_cons_self p ps)
    rw [objInsert_append p.1 p.2 acc hall]
    have hre : acc ++ p :: ps = (acc ++ [p]) ++ ps := by simp
    rw [hre] at h
    rw [ih (acc ++ [p]) h]
    simp

/-! Claim C10 machinery, part 2: whitespace skipping and character facts. -/

theorem skipWs_skipWs (s : Str) : skipWs (skipWs s) = skipWs s := by
  cases hx : skipWs s with
  | nil => rfl
  | cons c t =>
    have hc : isJsonWs c = false := by
      apply head?_dropWhile_not isJsonWs s
      rw [show s.dropWhile isJsonWs = skipWs s from rfl, hx]
      rfl
    rw [show skipWs (c :: t) = (c :: t).dropWhile isJsonWs from rfl,
      List.dropWhile_cons, if_neg (by simp [hc])]

theorem skipWs_cons_of_ws {c : Char} {s : Str} (h : isJsonWs c = true) :
    skipWs (c :: s) = skipWs s := by
  rw [show skipWs (c :: s) = (c :: s).dropWhile isJsonWs from rfl,
    List.dropWhile_cons, if_pos (by simp [h])]
  rfl

theorem skipWs_cons_of_not {c : Char} {s : Str} (h : isJsonWs c = false) :
    skipWs (c :: s) = c :: s := by
  rw [show skipWs (c :: s) = (c :: s).dropWhile isJsonWs from rfl,
    List.dropWhile_cons, if_neg (by simp [h])]

theorem skipWs_replicate_space (n : Nat) (s : Str) :
    skipWs (List.replicate n ' ' ++ s) = skipWs s := by
  induction n with
  | zero => rfl
  | succ n ih =>
    rw [List.replicate_succ, List.cons_append, skipWs_cons_of_ws (by decide)]
    exact ih

theorem skipWs_indent (d : Nat) (s : Str) :
    skipWs (jsonIndent d ++ s) = skipWs s :=
  skipWs_replicate_space (2 * d) s

theorem parseV_skipWs (fuel : Nat) (s : Str) :
    parseV fuel (skipWs s) = parseV fuel s := by
  cases fuel with
  | zero => rfl
  | succ fuel => rw [parseV, parseV, skipWs_skipWs]

theorem parseArrItems_skipWs (fuel : Nat) (s : Str) :
    parseArrItems fuel (skipWs s) = parseArrItems fuel s := by
  cases fuel with
  | zero => rfl
  | succ fuel => rw [parseArrItems, parseArrItems, parseV_skipWs]

theorem parseObjItems_skipWs (fuel : Nat) (s : Str) :
    parseObjItems fuel (skipWs s) = parseObjItems fuel s := by
  cases fuel with
  | zero => rfl
  | succ fuel => rw [parseObjItems, parseObjItems, skipWs_skipWs]

theorem jsonDigit_ne (c d : Char) (h : jsonDigit c = true) (hd : jsonDigit d = false) :
    c ≠ d := by
  intro he
  rw [he] at h
  rw [h] at hd
  exact absurd hd (by simp)

theorem numLit_head (s : Str) (h : numLit s = true) :
    ∃ c t, s = c :: t ∧ (c = '-' ∨ jsonDigit c = true) := by
  cases s with
  | nil => simp [numLit] at h
  | cons c t =>
    by_cases hc : c = '-'
    · exact ⟨c, t, rfl, Or.inl hc⟩
    · refine ⟨c, t, rfl, Or.inr ?_⟩
      unfold numLit at h
      rw [if_neg (by simp [hc])] at h
      simp only [List.tail_cons] at h
      by_cases hc0 : c = '0'
      · rw [hc0]
        decide
      · rw [if_neg hc0] at h
        exact ((Bool.and_eq_true _ _).mp h).1

theorem headChar_facts (c : Char)
    (h : c = 'n' ∨ c = 't' ∨ c = 'f' ∨ c = '"' ∨ c = '[' ∨ c = lbrace ∨
      c = '-' ∨ jsonDigit c = true) :
    isJsonWs c = false ∧ isRustWhitespace c = false ∧ c ≠ ']' ∧ c ≠ rbrace ∧ c ≠ ',' := by
  rcases h with h | h | h | h | h | h | h | h
  · rw [h]; refine ⟨by decide, by decide, by decide, by decide, by decide⟩
  · rw [h]; refine ⟨by decide, by decide, by decide, by decide, by decide⟩
  · rw [h]; refine ⟨by decide, by decide, by decide, by decide, by decide⟩
  · rw [h]; refine ⟨by decide, by decide, by decide, by decide, by decide⟩
  · rw [h]; refine ⟨by decide, by decide, by decide, by decide, by decide⟩
  · rw [h]; refine ⟨by decide, by decide, by decide, by decide, by decide⟩
  · rw [h]; refine ⟨by decide, by decide, by decide, by decide, by decide⟩
  · have hsp : c ≠ ' ' := jsonDigit_ne c ' ' h (by decide)
    have hnl : c ≠ '\n' := jsonDigit_ne c '\n' h (by decide)
    have htb : c ≠ '\t' := jsonDigit_ne c '\t' h (by decide)
    have hcr : c ≠ '\r' := jsonDigit_ne c '\r' h (by decide)
    refine ⟨by simp [isJsonWs, hsp, hnl, htb, hcr], ?_,
      jsonDigit_ne c ']' h (by decide), jsonDigit_ne c rbrace h (by decide),
      jsonDigit_ne c ',' h (by decide)⟩
    have hb : 48 ≤ c.toNat ∧ c.toNat ≤ 57 := by
      unfold jsonDigit at h
      rw [Bool.and_eq_true] at h
      exact ⟨by simpa using h.1, by simpa using h.2⟩
    simp only [isRustWhitespace]
    simp only [List.mem_cons, List.not_mem_nil, or_false, decide_eq_false_iff_not]
    push_neg
    omega

theorem isNumChar_not_rust_ws (c : Char) (h : isNumChar c = true) :
    isRustWhitespace c = false := by
  unfold isNumChar at h
  rcases (by simpa using h :
      ((((jsonDigit c = true ∨ c = '-') ∨ c = '+') ∨ c = '.') ∨ c = 'e') ∨ c = 'E') with
    ((((h | h) | h) | h) | h) | h
  · exact (headChar_facts c (by tauto)).2.1
  · rw [h]; decide
  · rw [h]; decide
  · rw [h]; decide
  · rw [h]; decide
  · rw [h]; decide

/-! Claim C10 machinery, part 3: shape of the rendered output. -/

theorem render_head (d : Nat) (v : Json) (hc : canonJ v = true) :
    ∃ c t, render d v = c :: t ∧
      (c = 'n' ∨ c = 't' ∨ c = 'f' ∨ c = '"' ∨ c = '[' ∨ c = lbrace ∨
        c = '-' ∨ jsonDigit c = true) := by
  cases v with
  | null => exact ⟨'n', "ull".data, by simp [render], by tauto⟩
  | bool b =>
    cases b with
    | true => exact ⟨'t', "rue".data, by simp [render], by tauto⟩
    | false => exact ⟨'f', "alse".data, by simp [render], by tauto⟩
  | num lit =>
    have hnum : numLit lit = true := by
      have hx : (numLit lit && lit.all isNumChar) = true := by simpa [canonJ] using hc
      exact ((Bool.and_eq_true _ _).mp hx).1
    obtain ⟨c, t, hlt, hcd⟩ := numLit_head lit hnum
    refine ⟨c, t, ?_, by tauto⟩
    rw [show render d (.num lit) = lit from by simp [render], hlt]
  | str s => exact ⟨'"', escapeStr s ++ ['"'], by simp [render], by tauto⟩
  | arr xs =>
    cases xs with
    | nil => exact ⟨'[', [']'], by simp [render], by tauto⟩
    | cons x xs =>
      exact ⟨'[', '\n' :: (renderArrItems d (x :: xs) ++ '\n' :: (jsonIndent d ++ [']'])),
        by simp [render], by tauto⟩
  | obj ps =>
    cases ps with
    | nil => exact ⟨lbrace, [rbrace], by simp [render], by tauto⟩
    | cons p ps =>
      exact ⟨lbrace,
        '\n' :: (renderObjItems d (p :: ps) ++ '\n' :: (jsonIndent d ++ [rbrace])),
        by simp [render], by tauto⟩

theorem getLast?_of_ne_nil (l : Str) (h : l ≠ []) :
    ∃ c, l.getLast? = some c ∧ c ∈ l := by
  induction l with
  | nil => exact absurd rfl h
  | cons a t ih =>
    cases t with
    | nil => exact ⟨a, rfl, List.mem_singleton_self a⟩
    | cons b u =>
      obtain ⟨c, hc, hmem⟩ := ih (by simp)
      exact ⟨c, by rw [List.getLast?_cons_cons]; exact hc, List.mem_cons_of_mem a hmem⟩

theorem render_last (d : Nat) (v : Json) (hc : canonJ v = true) :
    ∃ c, (render d v).getLast? = some c ∧ isRustWhitespace c = false := by
  cases v with
  | null => exact ⟨'l', by simp [render], by decide⟩
  | bool b =>
    cases b with
    | true => exact ⟨'e', by simp [render], by decide⟩
    | false => exact ⟨'e', by simp [render], by decide⟩
  | num lit =>
    have hx : (numLit lit && lit.all isNumChar) = true := by simpa [canonJ] using hc
    have hnum := ((Bool.and_eq_true _ _).mp hx).1
    have hall := ((Bool.and_eq_true _ _).mp hx).2
    obtain ⟨c0, t0, hlt, _⟩ := numLit_head lit hnum
    obtain ⟨c, hc1, hc2⟩ := getLast?_of_ne_nil lit (by rw [hlt]; simp)
    refine ⟨c, ?_, ?_⟩
    · rw [show render d (.num lit) = lit from by simp [render]]
      exact hc1
    · exact isNumChar_not_rust_ws c (by
        rw [List.all_eq_true] at hall
        exact hall c hc2)
  | str s =>
    refine ⟨'"', ?_, by decide⟩
    rw [show render d (.str s) = ('"' :: escapeStr s) ++ ['"'] from by simp [render]]
    exact List.getLast?_concat _
  | arr xs =>
    cases xs with
    | nil => exact ⟨']', by simp [render], by decide⟩
    | cons x xs =>
      refine ⟨']', ?_, by decide⟩
      rw [show render d (.arr (x :: xs)) =
        ('[' :: '\n' :: (renderArrItems d (x :: xs) ++ '\n' :: jsonIndent d)) ++ [']'] from by
          simp [render]]
      exact List.getLast?_concat _
  | obj ps =>
    cases ps with
    | nil =>
      refine ⟨rbrace, ?_, by decide⟩
      rw [show render d (.obj []) = [lbrace, rbrace] from by simp [render]]
      rfl
    | cons p ps =>
      refine ⟨rbrace, ?_, by decide⟩
      rw [show render d (.obj (p :: ps)) =
        (lbrace :: '\n' :: (renderObjItems d (p :: ps) ++ '\n' :: jsonIndent d)) ++ [rbrace]
        from by simp [render]]
      exact List.getLast?_concat _

theorem rustTrim_render (v : Json) (hc : canonJ v = true) :
    rustTrim (render 0 v) = render 0 v := by
  obtain ⟨c0, t0, he, hfacts⟩ := render_head 0 v hc
  obtain ⟨c1, hl1, hl2⟩ := render_last 0 v hc
  apply rustTrim_eq_self
  · intro c hcc
    rw [he] at hcc
    simp at hcc
    rw [← hcc]
    exact (headChar_facts c0 hfacts).2.1
  · intro c hcc
    rw [hl1] at hcc
    simp at hcc
    rw [← hcc]
    exact hl2

/-! Claim C10 machinery, part 4: length and fuel bounds. -/

/-- The continuation after a rendered number literal must not begin with a
number character (maximal-munch safety). -/
def numSafe : Str → Bool
  | [] => true
  | c :: _ => !(isNumChar c)

theorem escapeChar_length_pos (c : Char) : 1 ≤ (escapeChar c).length := by
  unfold escapeChar
  split_ifs <;> simp

theorem escapeStr_length_le (s : Str) : s.length ≤ (escapeStr s).length := by
  induction s with
  | nil => simp [escapeStr]
  | cons c t ih =>
    have h1 : escapeStr (c :: t) = escapeChar c ++ escapeStr t := by
      simp [escapeStr]
    rw [h1, List.length_append, List.length_cons]
    have := escapeChar_length_pos c
    omega

theorem takeWhile_all (p : Char → Bool) (l : Str) (h : l.all p = true) :
    l.takeWhile p = l := by
  induction l with
  | nil => rfl
  | cons c t ih =>
    rw [List.all_cons, Bool.and_eq_true] at h
    rw [List.takeWhile_cons, if_pos (by simp [h.1])]
    rw [ih h.2]

theorem takeWhile_numRun (lit rest : Str) (hall : lit.all isNumChar = true)
    (hrest : numSafe rest = true) :
    (lit ++ rest).takeWhile isNumChar = lit := by
  rw [List.takeWhile_append]
  rw [takeWhile_all isNumChar lit hall]
  rw [if_pos rfl]
  cases rest with
  | nil => simp
  | cons c t =>
    have hc : isNumChar c = false := by
      unfold numSafe at hrest
      simpa using hrest
    rw [List.takeWhile_cons, if_neg (by simp [hc])]
    simp

mutual

theorem needFuel_le (v : Json) (d : Nat) : needFuel v ≤ (render d v).length + 1 := by
  cases v with
  | null => simp [needFuel, render]
  | bool b => cases b <;> simp [needFuel, render]
  | num lit => simp [needFuel, render]
  | str s =>
    have h := escapeStr_length_le s
    simp only [needFuel, render, List.length_cons, List.length_append,
      List.length_singleton]
    omega
  | arr xs =>
    cases xs with
    | nil => simp [needFuel, render]
    | cons x xs =>
      have h := needFuelItems_le (x :: xs) d (by simp)
      simp only [needFuel, render, List.length_cons, List.length_append, jsonIndent,
        List.length_replicate, List.length_singleton]
      omega
  | obj ps =>
    cases ps with
    | nil => simp [needFuel, render]
    | cons p ps =>
      have h := needFuelMembers_le (p :: ps) d (by simp)
      simp only [needFuel, render, List.length_cons, List.length_append, jsonIndent,
        List.length_replicate, List.length_singleton]
      omega

theorem needFuelItems_le (xs : List Json) (d : Nat) (h : xs ≠ []) :
    needFuelItems xs ≤ (renderArrItems d xs).length := by
  cases xs with
  | nil => exact absurd rfl h
  | cons x xs =>
    cases xs with
    | nil =>
      have h1 := needFuel_le x (d + 1)
      simp only [needFuelItems, renderArrItems, List.length_append, jsonIndent,
        List.length_replicate]
      omega
    | cons y ys =>
      have h1 := needFuel_le x (d + 1)
      have h2 := needFuelItems_le (y :: ys) d (by simp)
      have he : needFuelItems (y :: ys) = 1 + needFuel y + needFuelItems ys := rfl
      simp only [needFuelItems, renderArrItems, List.length_append, jsonIndent,
        List.length_replicate, List.length_cons]
      omega

theorem needFuelMembers_le (ps : List (Str × Json)) (d : Nat) (h : ps ≠ []) :
    needFuelMembers ps ≤ (renderObjItems d ps).length := by
  cases ps with
  | nil => exact absurd rfl h
  | cons p ps =>
    obtain ⟨k, v⟩ := p
    cases ps with
    | nil =>
      have h1 := needFuel_le v (d + 1)
      have h2 := escapeStr_length_le k
      simp only [needFuelMembers, renderObjItems, List.length_append, jsonIndent,
        List.length_replicate, List.length_cons]
      omega
    | cons q qs =>
      have h1 := needFuel_le v (d + 1)
      have h2 := escapeStr_length_le k
      have h3 := needFuelMembers_le (q :: qs) d (by simp)
      have he : needFuelMembers (q :: qs) =
          1 + (q.1.length + 1) + needFuel q.2 + needFuelMembers qs := by
        obtain ⟨qk, qv⟩ := q
        rfl
      simp only [needFuelMembers, renderObjItems, List.length_append, jsonIndent,
        List.length_replicate, List.length_cons]
      omega

end

/-! Claim C10 machinery, part 5: string escaping round trip. -/

theorem hexVal_hexDigitLower : ∀ m, m < 16 → hexVal (hexDigitLower m) = some m := by
  decide

theorem parseJStr_render (s : Str) : ∀ (rest : Str) (fuel : Nat),
    s.length + 1 ≤ fuel → parseJStr fuel (escapeStr s ++ '"' :: rest) = some (s, rest) := by
  induction s with
  | nil =>
    intro rest fuel hf
    cases fuel with
    | zero => omega
    | succ f => simp [escapeStr, parseJStr]
  | cons c t ih =>
    intro rest fuel hf
    cases fuel with
    | zero => simp at hf
    | succ f =>
      have hft : t.length + 1 ≤ f := by
        simp only [List.length_cons] at hf
        omega
      have hesc : escapeStr (c :: t) ++ '"' :: rest =
          escapeChar c ++ (escapeStr t ++ '"' :: rest) := by
        simp [escapeStr]
      rw [hesc]
      have hmap := ih rest f hft
      by_cases h1 : c = '"'
      · subst h1
        rw [show escapeChar '"' = ['\\', '"'] from by decide]
        simp [parseJStr, hmap]
      · by_cases h2 : c = '\\'
        · subst h2
          rw [show escapeChar '\\' = ['\\', '\\'] from by decide]
          simp [parseJStr, hmap]
        · by_cases h3 : c = '\x08'
          · subst h3
            rw [show escapeChar '\x08' = ['\\', 'b'] from by decide]
            simp [parseJStr, hmap]
          · by_cases h4 : c = '\t'
            · subst h4
              rw [show escapeChar '\t' = ['\\', 't'] from by decide]
              simp [parseJStr, hmap]
            · by_cases h5 : c = '\n'
              · subst h5
                rw [show escapeChar '\n' = ['\\', 'n'] from by decide]
                simp [parseJStr, hmap]
              · by_cases h6 : c = '\x0c'
                · subst h6
                  rw [show escapeChar '\x0c' = ['\\', 'f'] from by decide]
                  simp [parseJStr, hmap]
                · by_cases h7 : c = '\r'
                  · subst h7
                    rw [show escapeChar '\r' = ['\\', 'r'] from by decide]
                    simp [parseJStr, hmap]
                  · by_cases h8 : c.toNat < 0x20
                    · rw [show escapeChar c =
                        ['\\', 'u', '0', '0', hexDigitLower (c.toNat / 16),
                          hexDigitLower (c.toNat % 16)] from by
                        unfold escapeChar
                        rw [if_neg h1, if_neg h2, if_neg h3, if_neg h4, if_neg h5,
                          if_neg h6, if_neg h7, if_pos h8]]
                      have hv3 : hexVal (hexDigitLower (c.toNat / 16)) =
                          some (c.toNat / 16) := hexVal_hexDigitLower _ (by omega)
                      have hv4 : hexVal (hexDigitLower (c.toNat % 16)) =
                          some (c.toNat % 16) := hexVal_hexDigitLower _ (by omega)
                      have hv0 : hexVal '0' = some 0 := by decide
                      have hs1 : ¬ 55296 ≤ c.toNat := by omega
                      simp [parseJStr, hv0, hv3, hv4, hs1, Char.ofNat_toNat, hmap]
                      have hdm : c.toNat / 16 * 16 + c.toNat % 16 = c.toNat := by omega
                      rw [hdm]
                      exact ⟨fun hx => absurd hx hs1, Char.ofNat_toNat c⟩
                    · rw [show escapeChar c = [c] from by
                        unfold escapeChar
                        rw [if_neg h1, if_neg h2, if_neg h3, if_neg h4, if_neg h5,
                          if_neg h6, if_neg h7, if_neg h8]]
                      simp only [parseJStr, List.cons_append, List.singleton_append]
                      rw [if_neg h1, if_neg h2, if_neg h8]
                      simp [hmap]

/-! Claim C10 machinery, part 6: parser/printer round trip helpers. -/

theorem dropLit_append (lit r : Str) : dropLit lit (lit ++ r) = some r := by
  unfold dropLit
  rw [if_pos (by
    rw [List.isPrefixOf_iff_prefix]
    exact List.prefix_append lit r)]
  rw [List.drop_left]

theorem parseV_congr (fuel : Nat) (s t : Str) (h : skipWs s = skipWs t) :
    parseV fuel s = parseV fuel t := by
  rw [← parseV_skipWs fuel s, ← parseV_skipWs fuel t, h]

theorem parseArrItems_congr (fuel : Nat) (s t : Str) (h : skipWs s = skipWs t) :
    parseArrItems fuel s = parseArrItems fuel t := by
  rw [← parseArrItems_skipWs fuel s, ← parseArrItems_skipWs fuel t, h]

theorem parseObjItems_congr (fuel : Nat) (s t : Str) (h : skipWs s = skipWs t) :
    parseObjItems fuel s = parseObjItems fuel t := by
  rw [← parseObjItems_skipWs fuel s, ← parseObjItems_skipWs fuel t, h]

theorem skipWs_render (d : Nat) (x : Json) (hc : canonJ x = true) (y : Str) :
    skipWs (render d x ++ y) = render d x ++ y := by
  obtain ⟨c0, t0, he, hcs⟩ := render_head d x hc
  rw [he, List.cons_append, skipWs_cons_of_not (headChar_facts c0 hcs).1]

theorem numHead_ne (c : Char) (h : c = '-' ∨ jsonDigit c = true) :
    c ≠ 'n' ∧ c ≠ 't' ∧ c ≠ 'f' ∧ c ≠ '"' ∧ c ≠ '[' ∧ c ≠ lbrace := by
  rcases h with h | h
  · rw [h]
    refine ⟨by decide, by decide, by decide, by decide, by decide, by decide⟩
  · exact ⟨jsonDigit_ne c 'n' h (by decide), jsonDigit_ne c 't' h (by decide),
      jsonDigit_ne c 'f' h (by decide), jsonDigit_ne c '"' h (by decide),
      jsonDigit_ne c '[' h (by decide), jsonDigit_ne c lbrace h (by decide)⟩

theorem needFuel_pos (v : Json) : 1 ≤ needFuel v := by
  cases v with
  | null => simp [needFuel]
  | bool b => simp [needFuel]
  | num lit => simp [needFuel]
  | str s => simp [needFuel]
  | arr xs => cases xs <;> simp [needFuel]
  | obj ps => cases ps <;> simp [needFuel]

mutual

theorem parseV_render (v : Json) (hc : canonJ v = true) (d : Nat) (rest : Str)
    (fuel : Nat) (hf : needFuel v ≤ fuel) (hrest : numSafe rest = true) :
    parseV fuel (render d v ++ rest) = some (v, rest) := by
  cases fuel with
  | zero =>
    have := needFuel_pos v
    omega
  | succ f =>
    cases v with
    | null =>
      have hI : render d Json.null ++ rest = 'n' :: ("ull".data ++ rest) := by
        simp [render]
      rw [hI]
      simp only [parseV]
      rw [skipWs_cons_of_not (by decide)]
      have hdl : dropLit ['u', 'l', 'l'] ('u' :: 'l' :: 'l' :: rest) = some rest :=
        dropLit_append ['u', 'l', 'l'] rest
      simp [hdl]
    | bool b =>
      cases b with
      | true =>
        have hI : render d (Json.bool true) ++ rest = 't' :: ("rue".data ++ rest) := by
          simp [render]
        rw [hI]
        simp only [parseV]
        rw [skipWs_cons_of_not (by decide)]
        have hdl : dropLit ['r', 'u', 'e'] ('r' :: 'u' :: 'e' :: rest) = some rest :=
          dropLit_append ['r', 'u', 'e'] rest
        simp [hdl]
      | false =>
        have hI : render d (Json.bool false) ++ rest = 'f' :: ("alse".data ++ rest) := by
          simp [render]
        rw [hI]
        simp only [parseV]
        rw [skipWs_cons_of_not (by decide)]
        have hdl : dropLit ['a', 'l', 's', 'e'] ('a' :: 'l' :: 's' :: 'e' :: rest) = some rest :=
          dropLit_append ['a', 'l', 's', 'e'] rest
        simp [hdl]
    | num lit =>
      have hx : (numLit lit && lit.all isNumChar) = true := by simpa [canonJ] using hc
      have hnum := ((Bool.and_eq_true _ _).mp hx).1
      have hall := ((Bool.and_eq_true _ _).mp hx).2
      obtain ⟨c0, t0, hlt, hcd⟩ := numLit_head lit hnum
      obtain ⟨hn1, hn2, hn3, hn4, hn5, hn6⟩ := numHead_ne c0 hcd
      have hI : render d (Json.num lit) ++ rest = c0 :: (t0 ++ rest) := by
        rw [show render d (Json.num lit) = lit from by simp [render], hlt,
          List.cons_append]
      rw [hI]
      simp only [parseV]
      rw [skipWs_cons_of_not (headChar_facts c0 (by tauto)).1]
      have hback : c0 :: (t0 ++ rest) = lit ++ rest := by
        rw [hlt, List.cons_append]
      have hdisp : (jsonDigit c0 || c0 = '-') = true := by
        rcases hcd with h | h
        · simp [h]
        · simp [h]
      have hrun2 : (lit ++ rest).takeWhile isNumChar = lit :=
        takeWhile_numRun lit rest hall hrest
      simp [hn1, hn2, hn3, hn4, hn5, hn6, hdisp, hback]
      exact ⟨by rw [hrun2]; exact hnum, hrun2, by rw [hrun2, List.drop_left]⟩
    | str s =>
      have hI : render d (Json.str s) ++ rest = '"' :: (escapeStr s ++ '"' :: rest) := by
        simp [render]
      rw [hI]
      simp only [parseV]
      rw [skipWs_cons_of_not (by decide)]
      have hfs : s.length + 1 ≤ f := by
        have : needFuel (Json.str s) = s.length + 2 := rfl
        omega
      simp [parseJStr_render s rest f hfs]
    | arr xs =>
      cases xs with
      | nil =>
        have hI : render d (Json.arr []) ++ rest = '[' :: (']' :: rest) := by
          simp [render]
        rw [hI]
        simp only [parseV]
        rw [skipWs_cons_of_not (by decide : isJsonWs '[' = false)]
        simp [show skipWs (']' :: rest) = ']' :: rest from skipWs_cons_of_not (by decide)]
      | cons x xs =>
        have hcx : (canonJ x && canonItems xs) = true := by
          simpa [canonJ, canonItems] using hc
        have hcx1 : canonJ x = true := ((Bool.and_eq_true _ _).mp hcx).1
        have hci : canonItems (x :: xs) = true := by simpa [canonJ] using hc
        obtain ⟨W, hW⟩ : ∃ W,
            renderArrItems d (x :: xs) ++ ('\n' :: (jsonIndent d ++ (']' :: rest))) =
              jsonIndent (d + 1) ++ (render (d + 1) x ++ W) := by
          cases xs with
          | nil => exact ⟨'\n' :: (jsonIndent d ++ (']' :: rest)), by simp [renderArrItems]⟩
          | cons y ys =>
            exact ⟨',' :: ('\n' :: (renderArrItems d (y :: ys) ++
              ('\n' :: (jsonIndent d ++ (']' :: rest))))), by simp [renderArrItems]⟩
        obtain ⟨c0, t0, he, hcs⟩ := render_head (d + 1) x hcx1
        have hf2 : needFuelItems (x :: xs) ≤ f := by
          have : needFuel (Json.arr (x :: xs)) = 1 + needFuelItems (x :: xs) := rfl
          omega
        have hI : render d (Json.arr (x :: xs)) ++ rest =
            '[' :: ('\n' :: (renderArrItems d (x :: xs) ++
              ('\n' :: (jsonIndent d ++ (']' :: rest))))) := by
          simp [render]
        rw [hI]
        simp only [parseV]
        rw [skipWs_cons_of_not (by decide : isJsonWs '[' = false)]
        have hskip : skipWs ('\n' :: (renderArrItems d (x :: xs) ++
            ('\n' :: (jsonIndent d ++ (']' :: rest))))) = c0 :: (t0 ++ W) := by
          rw [skipWs_cons_of_ws (by decide), hW, skipWs_indent,
            skipWs_render (d + 1) x hcx1, he, List.cons_append]
        have hne2 : c0 ≠ ']' := (headChar_facts c0 hcs).2.2.1
        have hcongr : parseArrItems f (c0 :: (t0 ++ W)) = some (x :: xs, rest) := by
          rw [parseArrItems_congr f (c0 :: (t0 ++ W)) (renderArrItems d (x :: xs) ++
              ('\n' :: (jsonIndent d ++ (']' :: rest)))) (by
            rw [skipWs_cons_of_not (headChar_facts c0 hcs).1]
            rw [hW, skipWs_indent, skipWs_render (d + 1) x hcx1, he, List.cons_append])]
          exact parseArrItems_render (x :: xs) (by simp) hci d rest f hf2
        simp [hskip, hne2, hcongr]
    | obj ps =>
      cases ps with
      | nil =>
        have hI : render d (Json.obj []) ++ rest = lbrace :: (rbrace :: rest) := by
          simp [render]
        rw [hI]
        simp only [parseV]
        rw [skipWs_cons_of_not (by decide : isJsonWs lbrace = false)]
        simp [show skipWs (rbrace :: rest) = rbrace :: rest from
            skipWs_cons_of_not (by decide),
          show ¬ lbrace = 'n' from by decide, show ¬ lbrace = 't' from by decide,
          show ¬ lbrace = 'f' from by decide, show ¬ lbrace = '"' from by decide,
          show ¬ lbrace = '[' from by decide]
      | cons p ps =>
        obtain ⟨k, v⟩ := p
        have hcmem : canonMembers ((k, v) :: ps) = true := by
          have hx : (canonMembers ((k, v) :: ps) && keysSortedB ((k, v) :: ps)) = true := by
            simpa [canonJ] using hc
          exact ((Bool.and_eq_true _ _).mp hx).1
        have hsort : keysSortedB ((k, v) :: ps) = true := by
          have hx : (canonMembers ((k, v) :: ps) && keysSortedB ((k, v) :: ps)) = true := by
            simpa [canonJ] using hc
          exact ((Bool.and_eq_true _ _).mp hx).2
        obtain ⟨Q, hQ⟩ : ∃ Q,
            renderObjItems d ((k, v) :: ps) ++ ('\n' :: (jsonIndent d ++ (rbrace :: rest))) =
              jsonIndent (d + 1) ++ ('"' :: Q) := by
          cases ps with
          | nil =>
            refine ⟨escapeStr k ++ '"' :: ':' :: ' ' :: (render (d + 1) v ++
              '\n' :: (jsonIndent d ++ rbrace :: rest)), ?_⟩
            simp [renderObjItems]
          | cons q qs =>
            refine ⟨escapeStr k ++ '"' :: ':' :: ' ' :: (render (d + 1) v ++
              ',' :: '\n' :: (renderObjItems d (q :: qs) ++
                '\n' :: (jsonIndent d ++ rbrace :: rest))), ?_⟩
            simp [renderObjItems]
        have hf2 : needFuelMembers ((k, v) :: ps) ≤ f := by
          have : needFuel (Json.obj ((k, v) :: ps)) = 1 + needFuelMembers ((k, v) :: ps) := rfl
          omega
        have hI : render d (Json.obj ((k, v) :: ps)) ++ rest =
            lbrace :: ('\n' :: (renderObjItems d ((k, v) :: ps) ++
              ('\n' :: (jsonIndent d ++ (rbrace :: rest))))) := by
          simp [render]
        rw [hI]
        simp only [parseV]
        rw [skipWs_cons_of_not (by decide : isJsonWs lbrace = false)]
        have hskip : skipWs ('\n' :: (renderObjItems d ((k, v) :: ps) ++
            ('\n' :: (jsonIndent d ++ (rbrace :: rest))))) = '"' :: Q := by
          rw [skipWs_cons_of_ws (by decide), hQ, skipWs_indent,
            skipWs_cons_of_not (by decide)]
        have hobj : parseObjItems f ('"' :: Q) = some ((k, v) :: ps, rest) := by
          rw [parseObjItems_congr f ('"' :: Q) (renderObjItems d ((k, v) :: ps) ++
              ('\n' :: (jsonIndent d ++ (rbrace :: rest)))) (by
            rw [skipWs_cons_of_not (by decide : isJsonWs '"' = false)]
            rw [hQ, skipWs_indent, skipWs_cons_of_not (by decide)])]
          exact parseObjItems_render ((k, v) :: ps) (by simp) hcmem d rest f hf2
        have hfold :
            ((k, v) :: ps).foldl (fun m p => objInsert p.1 p.2 m) [] = (k, v) :: ps := by
          have := foldObjInsert_sorted ((k, v) :: ps) [] (by simpa using hsort)
          simpa using this
        simp [hskip, show ¬ lbrace = 'n' from by decide, show ¬ lbrace = 't' from by decide,
          show ¬ lbrace = 'f' from by decide, show ¬ lbrace = '"' from by decide,
          show ¬ lbrace = '[' from by decide, show ¬ ('"' : Char) = rbrace from by decide,
          hobj, hfold]

theorem parseArrItems_render (xs : List Json) (hne : xs ≠ [])
    (hc : canonItems xs = true) (d : Nat) (rest : Str) (fuel : Nat)
    (hf : needFuelItems xs ≤ fuel) :
    parseArrItems fuel (renderArrItems d xs ++ ('\n' :: (jsonIndent d ++ (']' :: rest)))) =
      some (xs, rest) := by
  cases xs with
  | nil => exact absurd rfl hne
  | cons x xs =>
    cases fuel with
    | zero =>
      have : needFuelItems (x :: xs) = 1 + needFuel x + needFuelItems xs := rfl
      omega
    | succ f =>
      have hcx1 : canonJ x = true := by
        have hx : (canonJ x && canonItems xs) = true := by simpa [canonItems] using hc
        exact ((Bool.and_eq_true _ _).mp hx).1
      have hfu : needFuelItems (x :: xs) = 1 + needFuel x + needFuelItems xs := rfl
      cases xs with
      | nil =>
        have hW : renderArrItems d [x] ++ ('\n' :: (jsonIndent d ++ (']' :: rest))) =
            jsonIndent (d + 1) ++ (render (d + 1) x ++
              ('\n' :: (jsonIndent d ++ (']' :: rest)))) := by
          simp [renderArrItems]
        rw [hW]
        simp only [parseArrItems]
        rw [show parseV f (jsonIndent (d + 1) ++ (render (d + 1) x ++
            ('\n' :: (jsonIndent d ++ (']' :: rest))))) = some (x,
              '\n' :: (jsonIndent d ++ (']' :: rest))) from by
          rw [parseV_congr f _ (render (d + 1) x ++
            ('\n' :: (jsonIndent d ++ (']' :: rest)))) (by rw [skipWs_indent])]
          exact parseV_render x hcx1 (d + 1)
            ('\n' :: (jsonIndent d ++ (']' :: rest))) f (by omega) rfl]
        simp [show skipWs ('\n' :: (jsonIndent d ++ (']' :: rest))) = ']' :: rest from by
            rw [skipWs_cons_of_ws (by decide), skipWs_indent, skipWs_cons_of_not (by decide)],
          show ¬ (']' : Char) = ',' from by decide]
      | cons y ys =>
        have hci2 : canonItems (y :: ys) = true := by
          have hx : (canonJ x && canonItems (y :: ys)) = true := by
            simpa [canonItems] using hc
          exact ((Bool.and_eq_true _ _).mp hx).2
        have hW : renderArrItems d (x :: y :: ys) ++
            ('\n' :: (jsonIndent d ++ (']' :: rest))) =
              jsonIndent (d + 1) ++ (render (d + 1) x ++
                (',' :: ('\n' :: (renderArrItems d (y :: ys) ++
                  ('\n' :: (jsonIndent d ++ (']' :: rest))))))) := by
          simp [renderArrItems]
        rw [hW]
        simp only [parseArrItems]
        rw [show parseV f (jsonIndent (d + 1) ++ (render (d + 1) x ++
            (',' :: ('\n' :: (renderArrItems d (y :: ys) ++
              ('\n' :: (jsonIndent d ++ (']' :: rest)))))))) = some (x,
                ',' :: ('\n' :: (renderArrItems d (y :: ys) ++
                  ('\n' :: (jsonIndent d ++ (']' :: rest)))))) from by
          rw [parseV_congr f _ (render (d + 1) x ++
            (',' :: ('\n' :: (renderArrItems d (y :: ys) ++
              ('\n' :: (jsonIndent d ++ (']' :: rest)))))))
            (by rw [skipWs_indent])]
          exact parseV_render x hcx1 (d + 1)
            (',' :: ('\n' :: (renderArrItems d (y :: ys) ++
              ('\n' :: (jsonIndent d ++ (']' :: rest)))))) f (by omega) rfl]
        have hrec : parseArrItems f ('\n' :: (renderArrItems d (y :: ys) ++
            ('\n' :: (jsonIndent d ++ (']' :: rest))))) = some (y :: ys, rest) := by
          rw [parseArrItems_congr f _ (renderArrItems d (y :: ys) ++
            ('\n' :: (jsonIndent d ++ (']' :: rest))))
            (by rw [skipWs_cons_of_ws (by decide)])]
          exact parseArrItems_render (y :: ys) (by simp) hci2 d rest f (by
            have h2 : needFuelItems (y :: ys) = 1 + needFuel y + needFuelItems ys := rfl
            omega)
        simp [show skipWs (',' :: ('\n' :: (renderArrItems d (y :: ys) ++
            ('\n' :: (jsonIndent d ++ (']' :: rest)))))) =
              ',' :: ('\n' :: (renderArrItems d (y :: ys) ++
                ('\n' :: (jsonIndent d ++ (']' :: rest))))) from
            skipWs_cons_of_not (by decide), hrec]

theorem parseObjItems_render (ps : List (Str × Json)) (hne : ps ≠ [])
    (hc : canonMembers ps = true) (d : Nat) (rest : Str) (fuel : Nat)
    (hf : needFuelMembers ps ≤ fuel) :
    parseObjItems fuel (renderObjItems d ps ++
        ('\n' :: (jsonIndent d ++ (rbrace :: rest)))) = some (ps, rest) := by
  cases ps with
  | nil => exact absurd rfl hne
  | cons p ps =>
    obtain ⟨k, v⟩ := p
    cases fuel with
    | zero =>
      have : needFuelMembers ((k, v) :: ps) =
          1 + (k.length + 1) + needFuel v + needFuelMembers ps := rfl
      omega
    | succ f =>
      have hfu : needFuelMembers ((k, v) :: ps) =
          1 + (k.length + 1) + needFuel v + needFuelMembers ps := rfl
      have hcv : canonJ v = true := by
        have hx : (canonJ v && canonMembers ps) = true := by simpa [canonMembers] using hc
        exact ((Bool.and_eq_true _ _).mp hx).1
      cases ps with
      | nil =>
        have hW : renderObjItems d [(k, v)] ++
            ('\n' :: (jsonIndent d ++ (rbrace :: rest))) =
              jsonIndent (d + 1) ++ ('"' :: (escapeStr k ++
                ('"' :: (':' :: (' ' :: (render (d + 1) v ++
                  ('\n' :: (jsonIndent d ++ (rbrace :: rest))))))))) := by
          simp [renderObjItems]
        rw [hW]
        simp only [parseObjItems]
        rw [show skipWs (jsonIndent (d + 1) ++ ('"' :: (escapeStr k ++
            ('"' :: (':' :: (' ' :: (render (d + 1) v ++
              ('\n' :: (jsonIndent d ++ (rbrace :: rest)))))))))) =
              '"' :: (escapeStr k ++ ('"' :: (':' :: (' ' :: (render (d + 1) v ++
                ('\n' :: (jsonIndent d ++ (rbrace :: rest)))))))) from by
          rw [skipWs_indent, skipWs_cons_of_not (by decide)]]
        simp [show parseJStr f (escapeStr k ++ ('"' :: (':' :: (' ' :: (render (d + 1) v ++
              ('\n' :: (jsonIndent d ++ (rbrace :: rest)))))))) =
            some (k, ':' :: (' ' :: (render (d + 1) v ++
              ('\n' :: (jsonIndent d ++ (rbrace :: rest)))))) from
            parseJStr_render k _ f (by omega),
          show skipWs (':' :: (' ' :: (render (d + 1) v ++
              ('\n' :: (jsonIndent d ++ (rbrace :: rest)))))) =
            ':' :: (' ' :: (render (d + 1) v ++
              ('\n' :: (jsonIndent d ++ (rbrace :: rest))))) from
            skipWs_cons_of_not (by decide),
          show parseV f (' ' :: (render (d + 1) v ++
              ('\n' :: (jsonIndent d ++ (rbrace :: rest))))) =
            some (v, '\n' :: (jsonIndent d ++ (rbrace :: rest))) from by
            rw [parseV_congr f _ (render (d + 1) v ++
              ('\n' :: (jsonIndent d ++ (rbrace :: rest))))
              (by rw [skipWs_cons_of_ws (by decide)])]
            exact parseV_render v hcv (d + 1)
              ('\n' :: (jsonIndent d ++ (rbrace :: rest))) f (by omega) rfl,
          show skipWs ('\n' :: (jsonIndent d ++ (rbrace :: rest))) = rbrace :: rest from by
            rw [skipWs_cons_of_ws (by decide), skipWs_indent, skipWs_cons_of_not (by decide)],
          show ¬ rbrace = ',' from by decide]
      | cons q qs =>
        have hcq : canonMembers (q :: qs) = true := by
          have hx : (canonJ v && canonMembers (q :: qs)) = true := by
            simpa [canonMembers] using hc
          exact ((Bool.and_eq_true _ _).mp hx).2
        have hW : renderObjItems d ((k, v) :: q :: qs) ++
            ('\n' :: (jsonIndent d ++ (rbrace :: rest))) =
              jsonIndent (d + 1) ++ ('"' :: (escapeStr k ++
                ('"' :: (':' :: (' ' :: (render (d + 1) v ++
                  (',' :: ('\n' :: (renderObjItems d (q :: qs) ++
                    ('\n' :: (jsonIndent d ++ (rbrace :: rest)))))))))))) := by
          simp [renderObjItems]
        rw [hW]
        simp only [parseObjItems]
        rw [show skipWs (jsonIndent (d + 1) ++ ('"' :: (escapeStr k ++
            ('"' :: (':' :: (' ' :: (render (d + 1) v ++
              (',' :: ('\n' :: (renderObjItems d (q :: qs) ++
                ('\n' :: (jsonIndent d ++ (rbrace :: rest))))))))))))) =
              '"' :: (escapeStr k ++ ('"' :: (':' :: (' ' :: (render (d + 1) v ++
                (',' :: ('\n' :: (renderObjItems d (q :: qs) ++
                  ('\n' :: (jsonIndent d ++ (rbrace :: rest))))))))))) from by
          rw [skipWs_indent, skipWs_cons_of_not (by decide)]]
        have hrec : parseObjItems f ('\n' :: (renderObjItems d (q :: qs) ++
            ('\n' :: (jsonIndent d ++ (rbrace :: rest))))) = some (q :: qs, rest) := by
          rw [parseObjItems_congr f _ (renderObjItems d (q :: qs) ++
            ('\n' :: (jsonIndent d ++ (rbrace :: rest))))
            (by rw [skipWs_cons_of_ws (by decide)])]
          exact parseObjItems_render (q :: qs) (by simp) hcq d rest f (by
            obtain ⟨qk, qv⟩ := q
            have h2 : needFuelMembers ((qk, qv) :: qs) =
                1 + (qk.length + 1) + needFuel qv + needFuelMembers qs := rfl
            omega)
        simp [show parseJStr f (escapeStr k ++ ('"' :: (':' :: (' ' :: (render (d + 1) v ++
              (',' :: ('\n' :: (renderObjItems d (q :: qs) ++
                ('\n' :: (jsonIndent d ++ (rbrace :: rest))))))))))) =
            some (k, ':' :: (' ' :: (render (d + 1) v ++
              (',' :: ('\n' :: (renderObjItems d (q :: qs) ++
                ('\n' :: (jsonIndent d ++ (rbrace :: rest))))))))) from
            parseJStr_render k _ f (by omega),
          show skipWs (':' :: (' ' :: (render (d + 1) v ++
              (',' :: ('\n' :: (renderObjItems d (q :: qs) ++
                ('\n' :: (jsonIndent d ++ (rbrace :: rest))))))))) =
            ':' :: (' ' :: (render (d + 1) v ++
              (',' :: ('\n' :: (renderObjItems d (q :: qs) ++
                ('\n' :: (jsonIndent d ++ (rbrace :: rest)))))))) from
            skipWs_cons_of_not (by decide),
          show parseV f (' ' :: (render (d + 1) v ++
              (',' :: ('\n' :: (renderObjItems d (q :: qs) ++
                ('\n' :: (jsonIndent d ++ (rbrace :: rest)))))))) =
            some (v, ',' :: ('\n' :: (renderObjItems d (q :: qs) ++
              ('\n' :: (jsonIndent d ++ (rbrace :: rest)))))) from by
            rw [parseV_congr f _ (render (d + 1) v ++
              (',' :: ('\n' :: (renderObjItems d (q :: qs) ++
                ('\n' :: (jsonIndent d ++ (rbrace :: rest)))))))
              (by rw [skipWs_cons_of_ws (by decide)])]
            exact parseV_render v hcv (d + 1)
              (',' :: ('\n' :: (renderObjItems d (q :: qs) ++
                ('\n' :: (jsonIndent d ++ (rbrace :: rest)))))) f (by omega) rfl,
          show skipWs (',' :: ('\n' :: (renderObjItems d (q :: qs) ++
              ('\n' :: (jsonIndent d ++ (rbrace :: rest)))))) =
            ',' :: ('\n' :: (renderObjItems d (q :: qs) ++
              ('\n' :: (jsonIndent d ++ (rbrace :: rest))))) from
            skipWs_cons_of_not (by decide),
          hrec]

end

/-! Claim C10 machinery, part 8: the parser only produces canonical values. -/

theorem takeWhile_all_self (p : Char → Bool) : ∀ l : Str, (l.takeWhile p).all p = true := by
  intro l
  induction l with
  | nil => rfl
  | cons c t ih =>
    rw [List.takeWhile_cons]
    by_cases h : p c = true
    · rw [if_pos (by simp [h])]
      rw [List.all_cons, h, ih]
      rfl
    · rw [if_neg (by simpa using h)]
      rfl

theorem objInsert_key_mem (k : Str) (v : Json) :
    ∀ (m : List (Str × Json)) (q : Str × Json), q ∈ objInsert k v m →
      q.1 = k ∨ ∃ p ∈ m, q.1 = p.1 := by
  intro m
  induction m with
  | nil =>
    intro q hq
    simp [objInsert] at hq
    rw [hq]
    exact Or.inl rfl
  | cons p0 rest ih =>
    obtain ⟨k1, v1⟩ := p0
    intro q hq
    unfold objInsert at hq
    by_cases h1 : strLtB k k1 = true
    · rw [if_pos h1] at hq
      rcases List.mem_cons.mp hq with h | h
      · rw [h]
        exact Or.inl rfl
      · rcases List.mem_cons.mp h with h2 | h2
        · exact Or.inr ⟨(k1, v1), List.mem_cons_self _ _, by rw [h2]⟩
        · exact Or.inr ⟨q, List.mem_cons_of_mem _ h2, rfl⟩
    · rw [if_neg h1] at hq
      by_cases h2 : strLtB k1 k = true
      · rw [if_pos h2] at hq
        rcases List.mem_cons.mp hq with h | h
        · exact Or.inr ⟨(k1, v1), List.mem_cons_self _ _, by rw [h]⟩
        · rcases ih q h with h3 | ⟨p, hp, he⟩
          · exact Or.inl h3
          · exact Or.inr ⟨p, List.mem_cons_of_mem _ hp, he⟩
      · rw [if_neg h2] at hq
        rcases List.mem_cons.mp hq with h | h
        · exact Or.inr ⟨(k1, v1), List.mem_cons_self _ _, by rw [h]⟩
        · exact Or.inr ⟨q, List.mem_cons_of_mem _ h, rfl⟩

theorem objInsert_canonMembers (k : Str) (v : Json) (hv : canonJ v = true) :
    ∀ m : List (Str × Json), canonMembers m = true →
      canonMembers (objInsert k v m) = true := by
  intro m
  induction m with
  | nil =>
    intro _
    simp [objInsert, canonMembers, hv]
  | cons p0 rest ih =>
    obtain ⟨k1, v1⟩ := p0
    intro hm
    simp only [canonMembers, Bool.and_eq_true] at hm
    unfold objInsert
    by_cases h1 : strLtB k k1 = true
    · rw [if_pos h1]
      simp only [canonMembers, Bool.and_eq_true]
      exact ⟨hv, hm.1, hm.2⟩
    · rw [if_neg h1]
      by_cases h2 : strLtB k1 k = true
      · rw [if_pos h2]
        simp only [canonMembers, Bool.and_eq_true]
        exact ⟨hm.1, ih hm.2⟩
      · rw [if_neg h2]
        simp only [canonMembers, Bool.and_eq_true]
        exact ⟨hv, hm.2⟩

theorem allKeysGt_objInsert (a k : Str) (v : Json) (m : List (Str × Json))
    (hm : allKeysGt a m = true) (hk : strLtB a k = true) :
    allKeysGt a (objInsert k v m) = true := by
  unfold allKeysGt
  rw [List.all_eq_true]
  intro q hq
  rcases objInsert_key_mem k v m q hq with h | ⟨p, hp, he⟩
  · rw [h]
    exact hk
  · rw [he]
    unfold allKeysGt at hm
    rw [List.all_eq_true] at hm
    exact hm p hp

theorem keysSortedB_objInsert (k : Str) (v : Json) :
    ∀ m : List (Str × Json), keysSortedB m = true →
      keysSortedB (objInsert k v m) = true := by
  intro m
  induction m with
  | nil =>
    intro _
    rfl
  | cons p0 rest ih =>
    obtain ⟨k1, v1⟩ := p0
    intro hm
    rw [keysSortedB_cons, Bool.and_eq_true] at hm
    unfold objInsert
    by_cases h1 : strLtB k k1 = true
    · rw [if_pos h1]
      rw [keysSortedB_cons, Bool.and_eq_true]
      constructor
      · unfold allKeysGt
        rw [List.all_eq_true]
        intro q hq
        rcases List.mem_cons.mp hq with h | h
        · rw [h]
          exact h1
        · have h3 := hm.1
          unfold allKeysGt at h3
          rw [List.all_eq_true] at h3
          exact strLtB_trans k k1 q.1 h1 (h3 q h)
      · rw [keysSortedB_cons, Bool.and_eq_true]
        exact hm
    · rw [if_neg h1]
      by_cases h2 : strLtB k1 k = true
      · rw [if_pos h2]
        rw [keysSortedB_cons, Bool.and_eq_true]
        exact ⟨allKeysGt_objInsert k1 k v rest hm.1 h2, ih hm.2⟩
      · rw [if_neg h2]
        rw [keysSortedB_cons, Bool.and_eq_true]
        exact hm

theorem foldObjInsert_canon :
    ∀ (items acc : List (Str × Json)), canonMembers items = true →
      canonMembers acc = true → keysSortedB acc = true →
      canonMembers (items.foldl (fun m p => objInsert p.1 p.2 m) acc) = true ∧
      keysSortedB (items.foldl (fun m p => objInsert p.1 p.2 m) acc) = true := by
  intro items
  induction items with
  | nil =>
    intro acc _ hc hs
    exact ⟨hc, hs⟩
  | cons p items ih =>
    obtain ⟨k, v⟩ := p
    intro acc hi hc hs
    simp only [canonMembers, Bool.and_eq_true] at hi
    rw [List.foldl_cons]
    exact ih (objInsert k v acc) hi.2
      (objInsert_canonMembers k v hi.1 acc hc)
      (keysSortedB_objInsert k v acc hs)

theorem parse_canon :
    ∀ fuel : Nat,
      (∀ s v r, parseV fuel s = some (v, r) → canonJ v = true) ∧
      (∀ s xs r, parseArrItems fuel s = some (xs, r) → canonItems xs = true) ∧
      (∀ s ps r, parseObjItems fuel s = some (ps, r) → canonMembers ps = true) := by
  intro fuel
  induction fuel with
  | zero =>
    refine ⟨fun s v r h => ?_, fun s xs r h => ?_, fun s ps r h => ?_⟩
    · exact absurd h (by rw [show parseV 0 s = none from rfl]; simp)
    · exact absurd h (by rw [show parseArrItems 0 s = none from rfl]; simp)
    · exact absurd h (by rw [show parseObjItems 0 s = none from rfl]; simp)
  | succ f ih =>
    obtain ⟨ihV, ihA, ihO⟩ := ih
    refine ⟨?_, ?_, ?_⟩
    · intro s v r h
      simp only [parseV] at h
      rcases hx : skipWs s with _ | ⟨c, r0⟩ <;> rw [hx] at h <;> dsimp only at h
      · exact absurd h (by simp)
      · by_cases h1 : c = 'n'
        · rw [if_pos h1] at h
          rcases hd : dropLit ['u', 'l', 'l'] r0 with _ | r2 <;> rw [hd] at h <;> dsimp only at h
          · exact absurd h (by simp)
          · simp only [Option.some.injEq, Prod.mk.injEq] at h
            rw [← h.1]
            rfl
        · rw [if_neg h1] at h
          by_cases h2 : c = 't'
          · rw [if_pos h2] at h
            rcases hd : dropLit ['r', 'u', 'e'] r0 with _ | r2 <;> rw [hd] at h <;> dsimp only at h
            · exact absurd h (by simp)
            · simp only [Option.some.injEq, Prod.mk.injEq] at h
              rw [← h.1]
              rfl
          · rw [if_neg h2] at h
            by_cases h3 : c = 'f'
            · rw [if_pos h3] at h
              rcases hd : dropLit ['a', 'l', 's', 'e'] r0 with _ | r2 <;> rw [hd] at h <;> dsimp only at h
              · exact absurd h (by simp)
              · simp only [Option.some.injEq, Prod.mk.injEq] at h
                rw [← h.1]
                rfl
            · rw [if_neg h3] at h
              by_cases h4 : c = '"'
              · rw [if_pos h4] at h
                rcases hd : parseJStr f r0 with _ | ⟨cs, r1⟩ <;> rw [hd] at h <;> dsimp only at h
                · exact absurd h (by simp)
                · simp only [Option.some.injEq, Prod.mk.injEq] at h
                  rw [← h.1]
                  rfl
              · rw [if_neg h4] at h
                by_cases h5 : c = '['
                · rw [if_pos h5] at h
                  rcases hy : skipWs r0 with _ | ⟨c1, r1⟩ <;> rw [hy] at h <;> dsimp only at h
                  · exact absurd h (by simp)
                  · by_cases h6 : c1 = ']'
                    · rw [if_pos h6] at h
                      simp only [Option.some.injEq, Prod.mk.injEq] at h
                      rw [← h.1]
                      rfl
                    · rw [if_neg h6] at h
                      rcases ha : parseArrItems f (c1 :: r1) with _ | ⟨xs, r2⟩ <;>
                        rw [ha] at h <;> dsimp only at h
                      · exact absurd h (by simp)
                      · simp only [Option.some.injEq, Prod.mk.injEq] at h
                        rw [← h.1]
                        simp only [canonJ]
                        exact ihA (c1 :: r1) xs r2 ha
                · rw [if_neg h5] at h
                  by_cases h7 : c = lbrace
                  · rw [if_pos h7] at h
                    rcases hy : skipWs r0 with _ | ⟨c1, r1⟩ <;> rw [hy] at h <;> dsimp only at h
                    · exact absurd h (by simp)
                    · by_cases h8 : c1 = rbrace
                      · rw [if_pos h8] at h
                        simp only [Option.some.injEq, Prod.mk.injEq] at h
                        rw [← h.1]
                        rfl
                      · rw [if_neg h8] at h
                        rcases ho : parseObjItems f (c1 :: r1) with _ | ⟨items, r2⟩ <;>
                          rw [ho] at h <;> dsimp only at h
                        · exact absurd h (by simp)
                        · simp only [Option.some.injEq, Prod.mk.injEq] at h
                          rw [← h.1]
                          have hcm := ihO (c1 :: r1) items r2 ho
                          have hfc := foldObjInsert_canon items [] hcm (by rfl) (by rfl)
                          simp only [canonJ, Bool.and_eq_true]
                          exact hfc
                  · rw [if_neg h7] at h
                    by_cases h9 : (jsonDigit c || c = '-') = true
                    · rw [if_pos h9] at h
                      by_cases hn : numLit ((c :: r0).takeWhile isNumChar) = true
                      · rw [if_pos hn] at h
                        simp only [Option.some.injEq, Prod.mk.injEq] at h
                        rw [← h.1]
                        simp only [canonJ, Bool.and_eq_true]
                        exact ⟨hn, takeWhile_all_self isNumChar (c :: r0)⟩
                      · rw [if_neg hn] at h
                        exact absurd h (by simp)
                    · rw [if_neg h9] at h
                      exact absurd h (by simp)
    · intro s xs r h
      simp only [parseArrItems] at h
      rcases hv : parseV f s with _ | ⟨v, r1⟩ <;> rw [hv] at h <;> dsimp only at h
      · exact absurd h (by simp)
      · rcases hy : skipWs r1 with _ | ⟨c, r2⟩ <;> rw [hy] at h <;> dsimp only at h
        · exact absurd h (by simp)
        · by_cases h1 : c = ','
          · rw [if_pos h1] at h
            rcases ha : parseArrItems f r2 with _ | ⟨ys, r3⟩ <;> rw [ha] at h <;> dsimp only at h
            · exact absurd h (by simp)
            · simp only [Option.some.injEq, Prod.mk.injEq] at h
              rw [← h.1]
              simp only [canonItems, Bool.and_eq_true]
              exact ⟨ihV s v r1 hv, ihA r2 ys r3 ha⟩
          · rw [if_neg h1] at h
            by_cases h2 : c = ']'
            · rw [if_pos h2] at h
              simp only [Option.some.injEq, Prod.mk.injEq] at h
              rw [← h.1]
              simp only [canonItems, Bool.and_eq_true]
              exact ⟨ihV s v r1 hv, trivial⟩
            · rw [if_neg h2] at h
              exact absurd h (by simp)
    · intro s ps r h
      simp only [parseObjItems] at h
      rcases hx : skipWs s with _ | ⟨c, r0⟩ <;> rw [hx] at h <;> dsimp only at h
      · exact absurd h (by simp)
      · by_cases h1 : c = '"'
        · rw [if_pos h1] at h
          rcases hk : parseJStr f r0 with _ | ⟨k, r1⟩ <;> rw [hk] at h <;> dsimp only at h
          · exact absurd h (by simp)
          · rcases hy : skipWs r1 with _ | ⟨c1, r2⟩ <;> rw [hy] at h <;> dsimp only at h
            · exact absurd h (by simp)
            · by_cases h2 : c1 = ':'
              · rw [if_pos h2] at h
                rcases hv : parseV f r2 with _ | ⟨v, r3⟩ <;> rw [hv] at h <;> dsimp only at h
                · exact absurd h (by simp)
                · rcases hz : skipWs r3 with _ | ⟨c2, r4⟩ <;> rw [hz] at h <;> dsimp only at h
                  · exact absurd h (by simp)
                  · by_cases h3 : c2 = ','
                    · rw [if_pos h3] at h
                      rcases ho : parseObjItems f r4 with _ | ⟨items, r5⟩ <;>
                        rw [ho] at h <;> dsimp only at h
                      · exact absurd h (by simp)
                      · simp only [Option.some.injEq, Prod.mk.injEq] at h
                        rw [← h.1]
                        simp only [canonMembers, Bool.and_eq_true]
                        exact ⟨ihV r2 v r3 hv, ihO r4 items r5 ho⟩
                    · rw [if_neg h3] at h
                      by_cases h4 : c2 = rbrace
                      · rw [if_pos h4] at h
                        simp only [Option.some.injEq, Prod.mk.injEq] at h
                        rw [← h.1]
                        simp only [canonMembers, Bool.and_eq_true]
                        exact ⟨ihV r2 v r3 hv, trivial⟩
                      · rw [if_neg h4] at h
                        exact absurd h (by simp)
              · rw [if_neg h2] at h
                exact absurd h (by simp)
        · rw [if_neg h1] at h
          exact absurd h (by simp)

theorem jsonParse_render (v : Json) (hc : canonJ v = true) :
    jsonParse (render 0 v) = some v := by
  unfold jsonParse
  have h1 : parseV ((render 0 v).length + 1) (render 0 v) = some (v, []) := by
    have h2 := parseV_render v hc 0 [] ((render 0 v).length + 1) (needFuel_le v 0) rfl
    simpa using h2
  rw [h1]
  rfl

theorem jsonParse_canon (s : Str) (v : Json) (h : jsonParse s = some v) :
    canonJ v = true := by
  unfold jsonParse at h
  rcases hp : parseV (s.length + 1) s with _ | ⟨w, r⟩ <;> rw [hp] at h <;>
    dsimp only at h
  · exact absurd h (by simp)
  · by_cases hr : skipWs r = []
    · rw [if_pos hr] at h
      simp only [Option.some.injEq] at h
      rw [← h]
      exact (parse_canon (s.length + 1)).1 s w r hp
    · rw [if_neg hr] at h
      exact absurd h (by simp)

theorem prettyPrintJson_fixed (v : Json) (hc : canonJ v = true) :
    prettyPrintJson (render 0 v) = .ok (render 0 v) := by
  unfold prettyPrintJson
  rw [rustTrim_render v hc]
  have hne : render 0 v ≠ [] := by
    obtain ⟨c, t, he, -⟩ := render_head 0 v hc
    rw [he]
    simp
  rw [if_neg hne, jsonParse_render v hc]

theorem prettyPrintJson_idem (s t : Str) (h : prettyPrintJson s = .ok t) :
    prettyPrintJson t = .ok t := by
  unfold prettyPrintJson at h
  by_cases h1 : rustTrim s = []
  · rw [if_pos h1] at h
    simp only [Except.ok.injEq] at h
    rw [← h]
    unfold prettyPrintJson
    rw [if_pos (by rfl)]
  · rw [if_neg h1] at h
    rcases hp : jsonParse (rustTrim s) with _ | v <;> rw [hp] at h
    · simp only [Except.ok.injEq] at h
      rw [← h]
      unfold prettyPrintJson
      rw [if_neg h1, hp]
    · simp only [Except.ok.injEq] at h
      rw [← h]
      exact prettyPrintJson_fixed v (jsonParse_canon (rustTrim s) v hp)

example :
    buildUrlWithParams "https://x.y/p".data [("a b".data, "c".data)] =
      .ok "https://x.y/p?a%20b=c".data := by decide

example : splitHeaders ": value".data = .error .headerParsing := by decide

/-! Helper lemmas about the tab-store operations. -/

theorem saveCurrentTabState_tabs_length (a : App) :
    (saveCurrentTabState a).1.tabs.length = a.tabs.length := by
  unfold saveCurrentTabState
  cases h : a.tabs[a.selectedTab]? <;> simp

theorem saveCurrentTabState_selectedTab (a : App) :
    (saveCurrentTabState a).1.selectedTab = a.selectedTab := by
  unfold saveCurrentTabState
  cases h : a.tabs[a.selectedTab]? <;> simp

theorem restoreCurrentTabState_tabs (a : App) :
    (restoreCurrentTabState a).1.tabs = a.tabs := by
  unfold restoreCurrentTabState
  cases h : a.tabs[a.selectedTab]? with
  | none => simp
  | some t => cases h2 : httpOfMethod t.request.method <;> simp [h2]

theorem restoreCurrentTabState_selectedTab (a : App) :
    (restoreCurrentTabState a).1.selectedTab = a.selectedTab := by
  unfold restoreCurrentTabState
  cases h : a.tabs[a.selectedTab]? with
  | none => simp
  | some t => cases h2 : httpOfMethod t.request.method <;> simp [h2]

theorem tabsOk_nextTab (a : App) (h : TabsOk a) : TabsOk (nextTab a).1 := by
  obtain ⟨h1, h2⟩ := h
  unfold nextTab
  rcases hs : saveCurrentTabState a with ⟨a1, e⟩
  have hlen : a1.tabs.length = a.tabs.length := by
    have := saveCurrentTabState_tabs_length a
    rw [hs] at this
    exact this
  have hsel : a1.selectedTab = a.selectedTab := by
    have := saveCurrentTabState_selectedTab a
    rw [hs] at this
    exact this
  cases e with
  | some e =>
    show TabsOk a1
    exact ⟨by omega, by omega⟩
  | none =>
    show TabsOk (restoreCurrentTabState
      { a1 with selectedTab := (a1.selectedTab + 1) % a1.tabs.length }).1
    constructor
    · rw [restoreCurrentTabState_tabs]
      simp only
      omega
    · rw [restoreCurrentTabState_selectedTab, restoreCurrentTabState_tabs]
      simp only
      exact Nat.mod_lt _ (by omega)

theorem tabsOk_prevTab (a : App) (h : TabsOk a) : TabsOk (prevTab a).1 := by
  obtain ⟨h1, h2⟩ := h
  unfold prevTab
  rcases hs : saveCurrentTabState a with ⟨a1, e⟩
  have hlen : a1.tabs.length = a.tabs.length := by
    have := saveCurrentTabState_tabs_length a
    rw [hs] at this
    exact this
  have hsel : a1.selectedTab = a.selectedTab := by
    have := saveCurrentTabState_selectedTab a
    rw [hs] at this
    exact this
  cases e with
  | some e =>
    show TabsOk a1
    exact ⟨by omega, by omega⟩
  | none =>
    show TabsOk (restoreCurrentTabState
      { a1 with
          selectedTab :=
            if a1.selectedTab = 0 then a1.tabs.length - 1 else a1.selectedTab - 1 }).1
    constructor
    · rw [restoreCurrentTabState_tabs]
      simp only
      omega
    · rw [restoreCurrentTabState_selectedTab, restoreCurrentTabState_tabs]
      simp only
      split <;> omega

theorem tabsOk_addNewTab (a : App) (h : TabsOk a) : TabsOk (addNewTab a).1 := by
  obtain ⟨h1, h2⟩ := h
  unfold addNewTab
  rcases hs : saveCurrentTabState a with ⟨a1, e⟩
  have hlen : a1.tabs.length = a.tabs.length := by
    have := saveCurrentTabState_tabs_length a
    rw [hs] at this
    exact this
  have hsel : a1.selectedTab = a.selectedTab := by
    have := saveCurrentTabState_selectedTab a
    rw [hs] at this
    exact this
  cases e with
  | some e =>
    show TabsOk a1
    exact ⟨by omega, by omega⟩
  | none =>
    simp only
    set a3 : App :=
      { a1 with
          tabs := a1.tabs ++ [tabNew ("Tab ".data ++ Nat.toDigits 10 (a1.tabs.length + 1)) []]
          selectedTab := (a1.tabs ++ [tabNew ("Tab ".data ++
            Nat.toDigits 10 (a1.tabs.length + 1)) []]).length - 1 } with ha3
    have hok : TabsOk (restoreCurrentTabState a3).1 := by
      constructor
      · rw [restoreCurrentTabState_tabs]
        rw [ha3]
        simp
      · rw [restoreCurrentTabState_selectedTab, restoreCurrentTabState_tabs]
        rw [ha3]
        simp
    rcases hr : restoreCurrentTabState a3 with ⟨a4, e4⟩
    rw [hr] at hok
    cases e4 <;> exact hok

theorem tabsOk_closeCurrentTab (a : App) (h : TabsOk a) : TabsOk (closeCurrentTab a).1 := by
  obtain ⟨h1, h2⟩ := h
  unfold closeCurrentTab
  by_cases hle : a.tabs.length ≤ 1
  · simp only [hle, if_true]
    exact ⟨h1, h2⟩
  · simp only [hle, if_false]
    by_cases hsel : a.tabs.length ≤ a.selectedTab
    · simp only [hsel, if_true]
      exact ⟨h1, h2⟩
    · simp only [hsel, if_false]
      have herase : (a.tabs.eraseIdx a.selectedTab).length = a.tabs.length - 1 := by
        rw [List.length_eraseIdx]
        simp [h2]
      set a1 : App := { a with tabs := a.tabs.eraseIdx a.selectedTab } with ha1
      have ha1tabs : a1.tabs.length = a.tabs.length - 1 := herase
      set a2 : App :=
        if a1.tabs.length ≤ a1.selectedTab then { a1 with selectedTab := a1.tabs.length - 1 }
        else a1 with ha2
      have ha2tabs : a2.tabs.length = a.tabs.length - 1 := by
        rw [ha2]
        split <;> simpa using ha1tabs
      have ha2sel : a2.selectedTab < a2.tabs.length := by
        rw [ha2]
        by_cases hcase : a1.tabs.length ≤ a1.selectedTab
        · rw [if_pos hcase]
          show a1.tabs.length - 1 < a1.tabs.length
          omega
        · rw [if_neg hcase]
          show a1.selectedTab < a1.tabs.length
          omega
      rcases hr : restoreCurrentTabState a2 with ⟨a3, e3⟩
      have htabs := restoreCurrentTabState_tabs a2
      have hselr := restoreCurrentTabState_selectedTab a2
      rw [hr] at htabs hselr
      simp only at htabs hselr
      have hok : TabsOk a3 := by
        constructor
        · rw [htabs]
          omega
        · rw [hselr, htabs]
          rw [ha2tabs] at ha2sel
          omega
      cases e3 <;> simpa using hok

theorem tabsOk_step (a : App) (op : TabOp) (h : TabsOk a) : TabsOk (tabOpStep a op) := by
  cases op with
  | addNew => exact tabsOk_addNewTab a h
  | closeCur => exact tabsOk_closeCurrentTab a h
  | next => exact tabsOk_nextTab a h
  | prev => exact tabsOk_prevTab a h

theorem tabsOk_runTabOps (a : App) (ops : List TabOp) (h : TabsOk a) :
    TabsOk (runTabOps a ops) := by
  induction ops generalizing a with
  | nil => exact h
  | cons op ops ih => exact ih (tabOpStep a op) (tabsOk_step a op h)

/-- C1: every state reachable from the initial state (one seed tab, selected
index 0) by any sequence of tab operations (add-new-tab, close-current-tab,
next-tab, prev-tab) has at least one tab and a selected index strictly below
the number of tabs. -/
theorem claim_C1_tab_store_invariant (ops : List TabOp) :
    1 ≤ (runTabOps appNew ops).tabs.length ∧
      (runTabOps appNew ops).selectedTab < (runTabOps appNew ops).tabs.length :=
  tabsOk_runTabOps appNew ops ⟨by decide, by decide⟩

/-! Save/restore round trip (claim C2). -/

/-- The edit buffers of the application: url text, method selection, body
text, committed header list, committed parameter list. -/
def buffersOf (a : App) :
    Str × HttpMethod × Str × List (Str × Str) × List (Str × Str) :=
  (a.urlInput, a.selectedMethod, a.bodyInput, a.headersInput, a.paramsInput)

theorem httpOfMethod_methodOfHttp (m : HttpMethod) :
    httpOfMethod (methodOfHttp m) = some m := by
  cases m <;> rfl

theorem save_spec (a : App) (h : a.selectedTab < a.tabs.length) :
    saveCurrentTabState a =
      ({ a with
          tabs := a.tabs.set a.selectedTab
            { a.tabs[a.selectedTab] with request := bufferRequest a } }, none) := by
  unfold saveCurrentTabState
  rw [List.getElem?_eq_getElem h]

theorem nextTab_spec (a : App) (h : a.selectedTab < a.tabs.length) :
    nextTab a =
      restoreCurrentTabState
        { a with
            tabs := a.tabs.set a.selectedTab
              { a.tabs[a.selectedTab] with request := bufferRequest a }
            selectedTab := (a.selectedTab + 1) % a.tabs.length } := by
  unfold nextTab
  rw [save_spec a h]
  simp [List.length_set]

theorem prevTab_spec (a : App) (h : a.selectedTab < a.tabs.length) :
    prevTab a =
      restoreCurrentTabState
        { a with
            tabs := a.tabs.set a.selectedTab
              { a.tabs[a.selectedTab] with request := bufferRequest a }
            selectedTab :=
              if a.selectedTab = 0 then a.tabs.length - 1 else a.selectedTab - 1 } := by
  unfold prevTab
  rw [save_spec a h]
  simp [List.length_set]

theorem bufferRequest_congr (x y : App) (h : buffersOf x = buffersOf y) :
    bufferRequest x = bufferRequest y := by
  unfold buffersOf at h
  simp only [Prod.mk.injEq] at h
  obtain ⟨h1, h2, h3, h4, h5⟩ := h
  unfold bufferRequest
  rw [h1, h2, h3, h4, h5]

theorem buffersOf_restore (b x : App) (t : Tab)
    (hb : b.tabs[b.selectedTab]? = some t)
    (ht : t.request = bufferRequest x) :
    buffersOf (restoreCurrentTabState b).1 = buffersOf x := by
  unfold restoreCurrentTabState
  rw [hb]
  simp only [ht, bufferRequest, httpOfMethod_methodOfHttp, buffersOf]
  by_cases hx : x.bodyInput = [] <;> simp [hx]

/-- C2: saving the edit buffers into the selected tab, switching to the next
tab and back with the save/restore pair, reproduces exactly the url, method,
body (the empty body string mapping to a missing body and back), header list
and parameter list that were in the buffers before the switch. -/
theorem claim_C2_save_restore_round_trip (a : App)
    (h : a.selectedTab < a.tabs.length) :
    buffersOf (prevTab (nextTab a).1).1 = buffersOf a := by
  have hn : 0 < a.tabs.length := Nat.lt_of_le_of_lt (Nat.zero_le _) h
  rw [nextTab_spec a h]
  set tOld : Tab := { a.tabs[a.selectedTab] with request := bufferRequest a } with htOld
  set ts1 : List Tab := a.tabs.set a.selectedTab tOld with hts1
  set u : Nat := (a.selectedTab + 1) % a.tabs.length with hu
  have hulen : u < a.tabs.length := Nat.mod_lt _ hn
  set a2 : App := { a with tabs := ts1, selectedTab := u } with ha2
  have hts1len : ts1.length = a.tabs.length := by
    simp [hts1]
  have hts1s : ts1[a.selectedTab]? = some tOld := by
    rw [hts1]
    exact List.getElem?_set_eq_of_lt tOld h
  rcases hr : restoreCurrentTabState a2 with ⟨R, eR⟩
  have hRtabs : R.tabs = ts1 := by
    have := restoreCurrentTabState_tabs a2
    rw [hr] at this
    exact this
  have hRsel : R.selectedTab = u := by
    have := restoreCurrentTabState_selectedTab a2
    rw [hr] at this
    exact this
  show buffersOf (prevTab R).1 = buffersOf a
  have hRsellt : R.selectedTab < R.tabs.length := by
    rw [hRtabs, hRsel, hts1len]
    exact hulen
  rw [prevTab_spec R hRsellt]
  set tR : Tab := { R.tabs[R.selectedTab] with request := bufferRequest R } with htR
  set ts2 : List Tab := R.tabs.set R.selectedTab tR with hts2
  set v : Nat := if R.selectedTab = 0 then R.tabs.length - 1 else R.selectedTab - 1 with hv
  have hveq : v = a.selectedTab := by
    rw [hv, hRsel, hRtabs, hts1len, hu]
    by_cases hsn : a.selectedTab + 1 = a.tabs.length
    · rw [hsn]
      simp [Nat.mod_self]
      omega
    · have hlt : a.selectedTab + 1 < a.tabs.length := by omega
      rw [Nat.mod_eq_of_lt hlt]
      simp
  set a5 : App := { R with tabs := ts2, selectedTab := v } with ha5
  by_cases hus : u = a.selectedTab
  · -- wrapped around to the same tab (single-tab case)
    have hRbuf : buffersOf R = buffersOf a := by
      have ha2get : a2.tabs[a2.selectedTab]? = some tOld := by
        show ts1[u]? = some tOld
        rw [hus]
        exact hts1s
      have := buffersOf_restore a2 a tOld ha2get rfl
      rw [hr] at this
      exact this
    have ha5get : a5.tabs[a5.selectedTab]? = some tR := by
      show ts2[v]? = some tR
      rw [hts2, hveq, hRsel, hus]
      refine List.getElem?_set_eq_of_lt tR ?_
      rw [hRtabs, hts1len]
      rw [hus] at hulen
      exact hulen
    have := buffersOf_restore a5 R tR ha5get rfl
    rw [this]
    exact hRbuf
  · -- switched to a genuinely different tab
    have ha5get : a5.tabs[a5.selectedTab]? = some tOld := by
      show ts2[v]? = some tOld
      rw [hts2, hveq, hRsel]
      rw [List.getElem?_set_ne]
      · rw [hRtabs]
        exact hts1s
      · exact fun hc => hus hc
    exact buffersOf_restore a5 a tOld ha5get rfl

example :
    splitHeaders "Foo: bar: baz".data = .ok [("Foo".data, "bar: baz".data)] := by
  decide

example : urlencode "john doe".data = "john%20doe".data := by decide

example : rustTrim " ab ".data = "ab".data := by decide

example : splitAtFirst ':' "a:b:c".data = some ("a".data, "b:c".data) := by decide

example : rustLines "a\nb\n".data = ["a".data, "b".data] := by decide

example : rustLines "a\r\n\nb".data = ["a".data, [], "b".data] := by decide

/-- C10: the response body formatter of src/logic/response.rs is idempotent:
whenever formatting an input succeeds with an output (and it always
succeeds), formatting that output returns it unchanged; in particular an
already-pretty-printed JSON body such as the 2-space rendering of `[1]` is a
fixed point, and a non-JSON body passes through unchanged both times. -/
theorem claim_C10_formatter_idempotent :
    (∀ s t : Str, prettyPrintJson s = .ok t → prettyPrintJson t = .ok t) ∧
    prettyPrintJson "not a json".data = .ok "not a json".data ∧
    prettyPrintJson "[1]".data = .ok "[\n  1\n]".data := by
  exact ⟨prettyPrintJson_idem, by decide, by decide⟩

/-- C10 witness: the concrete document `[1]` formats to its pretty form and
that pretty form is a fixed point of the formatter. -/
theorem claim_C10_witness :
    prettyPrintJson "[1]".data = .ok "[\n  1\n]".data ∧
    prettyPrintJson "[\n  1\n]".data = .ok "[\n  1\n]".data :=
  ⟨by decide, claim_C10_formatter_idempotent.1 "[1]".data "[\n  1\n]".data (by decide)⟩

/-- C2 witness: the initial application state satisfies the tab-index bound,
so the save/restore round trip preserves its edit buffers. -/
theorem claim_C2_witness :
    appNew.selectedTab < appNew.tabs.length ∧
    buffersOf (prevTab (nextTab appNew).1).1 = buffersOf appNew :=
  ⟨by decide, claim_C2_save_restore_round_trip appNew (by decide)⟩
